import Mathlib

/-!
# MoonSQL: a verification development

A shallow embedding, in Lean 4, of the core data structures and algorithms of
the MoonSQL educational relational database engine, together with theorems
settling the specified properties of

* the SQL expression evaluator (src/sql/expressions.py),
* the record codec (src/storage/serdes.py),
* the 4 KiB slotted page (src/storage/page.py),
* the storage engine row operations (src/storage/storage_engine.py),
* the foreign-key constraint validation (src/engine/constraint_validator.py
  and its use by the DML operators in src/engine/executor.py), and
* the buffer pool (src/storage/buffer.py).

Python dictionaries holding row data are modelled as association lists with
distinct keys, Python bytes as lists of naturals below 256, and Python
exceptions as Option/Except results.
-/

namespace MoonSQL

/-! ## Values

The values that flow through the engine.  Rows decoded from storage contain
integers, strings and NULL; expression sub-results additionally contain
booleans (Python bool).  Floats are excluded: the decimal literal path never
reaches storage (INT is the only numeric type), and no theorem below depends
on float values.
-/

inductive Value where
  | intV (n : Int)
  | strV (s : String)
  | boolV (b : Bool)
  | nullV
  deriving Repr, DecidableEq

/-- Python truthiness of a value (`bool(x)`): None and 0 and the empty string
are falsy, every other int/str is truthy. -/
def Value.truthy : Value → Bool
  | .intV n => n != 0
  | .strV s => s != ""
  | .boolV b => b
  | .nullV => false

/-- Python `type(left) == type(right)` for the embedded value domain
(`bool` and `int` are distinct Python types). -/
def Value.sameType : Value → Value → Bool
  | .intV _, .intV _ => true
  | .strV _, .strV _ => true
  | .boolV _, .boolV _ => true
  | .nullV, .nullV => true
  | _, _ => false

/-- Python `isinstance(x, (int, float))`; note `bool` is a subclass of `int`. -/
def Value.isNum : Value → Bool
  | .intV _ => true
  | .boolV _ => true
  | _ => false

/-- The numeric content of an int/bool value (Python treats `True` as 1). -/
def Value.toNum : Value → Int
  | .intV n => n
  | .boolV b => if b then 1 else 0
  | _ => 0

/-- Python `str(x)` for the embedded value domain.  `toString` on `Int`
produces the same decimal form as Python (`-3`, `7`). -/
def pyStr : Value → String
  | .intV n => toString n
  | .strV s => s
  | .boolV b => if b then "True" else "False"
  | .nullV => "None"

/-! ## Rows

A row is a Python dict from column name to value; modelled as an association
list in insertion order (Python dicts preserve insertion order). -/

abbrev Row := List (String × Value)

/-- Membership test and lookup, `name in row_data` / `row_data[name]`. -/
def rowGet : Row → String → Option Value
  | [], _ => none
  | (k, v) :: rest, name => if k = name then some v else rowGet rest name

/-- Python `dict[key] = value`: replace in place if the key exists (keeping
its position), otherwise append. -/
def rowSet : Row → String → Value → Row
  | [], name, v => [(name, v)]
  | (k, w) :: rest, name, v =>
    if k = name then (k, v) :: rest else (k, w) :: rowSet rest name v

/-! ## Python helpers used by the evaluator -/

/-- Value of a non-empty list of decimal digit characters. -/
def digitsVal (cs : List Char) : Nat :=
  cs.foldl (fun acc c => acc * 10 + (c.toNat - 48)) 0

/-- Model of Python `int(s)` on ASCII numerals: an optional sign followed by
one or more decimal digits.  (The Python builtin also strips whitespace and
accepts underscore separators and non-ASCII digits; no such string occurs in
this development.)  Returns none where `int(s)` raises ValueError. -/
def pyIntOfString : String → Option Int :=
  fun s =>
    match s.data with
    | [] => none
    | c :: cs =>
      if c = '-' then
        if cs ≠ [] ∧ cs.all Char.isDigit then some (-(digitsVal cs : Int)) else none
      else if c = '+' then
        if cs ≠ [] ∧ cs.all Char.isDigit then some (digitsVal cs : Int) else none
      else if (c :: cs).all Char.isDigit then some (digitsVal (c :: cs) : Int)
      else none

/-- Model of Python `float(s)` for the form `[sign] digits . digits` (at
least one digit on one of the two sides), returned as an exact pair
(numerator, power-of-ten denominator).  Python floats round to the nearest
IEEE double; this model is exact instead.  The difference is observable only
for strings whose decimal value is closer to another value than one double
ulp; no theorem below exercises this branch at all. -/
def pyDecOfString : String → Option (Int × Nat) :=
  fun s =>
    let core : List Char → Option (Int × Nat) := fun cs =>
      match cs.splitOn '.' with
      | [intPart, fracPart] =>
        if (intPart ≠ [] ∨ fracPart ≠ []) ∧
            intPart.all Char.isDigit ∧ fracPart.all Char.isDigit then
          some ((digitsVal intPart * 10 ^ fracPart.length + digitsVal fracPart : Int),
                10 ^ fracPart.length)
        else none
      | _ => none
    match s.data with
    | [] => none
    | c :: cs =>
      if c = '-' then (core cs).map (fun p => (-p.1, p.2))
      else if c = '+' then core cs
      else core (c :: cs)

/-! ## Expression evaluator (src/sql/expressions.py)

The expression language is the dictionary format accepted by
`ExpressionEvaluator.evaluate`.  The fragment embedded here covers the
expression kinds the claims are about: `compare`, `between`, `is_null` and
the logical `and` / `or` / `not`.

An `Operand` is what `_get_value` accepts (the `left` / `right` / `min` /
`max` slots): a Python string (column reference, or a literal string when no
column of that name exists), a non-string constant, an explicit
`{"type": "literal"}` dict, or a nested expression dict.  An `EvalArg` is
what `evaluate` itself accepts for the operands of `and` / `or` / `not`:
a bare (non-dict) value returned as-is, or a nested expression dict.

A raised `ExpressionError` is modelled as `none`.
-/

mutual

inductive Operand where
  | str (s : String)
  | val (v : Value)
  | lit (v : Value)
  | sub (e : Expr)

inductive Expr where
  | cmp (l : Operand) (op : String) (r : Operand)
  | between (l lo hi : Operand)
  | isNullE (l : Operand) (checkNull : Bool)
  | andE (l r : EvalArg)
  | orE (l r : EvalArg)
  | notE (c : EvalArg)

inductive EvalArg where
  | val (v : Value)
  | sub (e : Expr)

end

/-- Result of `_normalize_types`: either a pair of values, or a pair of
Python floats arising from the decimal-string branch (kept as exact
numerator/denominator pairs, see `pyDecOfString`). -/
inductive Normalized where
  | pair (l r : Value)
  | dec (n1 : Int) (d1 : Nat) (n2 : Int) (d2 : Nat)

/-- `ExpressionEvaluator._normalize_types` (expressions.py lines 260-290).
Never raises: a failed `int()` conversion is caught and falls through to the
string/string fallback. -/
def normalizeTypes (left right : Value) : Normalized :=
  if left.sameType right then .pair left right
  else if left.isNum && right.isNum then .pair left right
  else
    match left, right with
    | .strV s, r =>
      if r.isNum then
        if s.data.contains '.' then
          match pyDecOfString s with
          | some (n, d) => .dec n d r.toNum 1
          | none => .pair (.strV s) (.strV (pyStr r))
        else
          match pyIntOfString s with
          | some n => .pair (.intV n) r
          | none => .pair (.strV s) (.strV (pyStr r))
      else .pair (.strV (pyStr left)) (.strV (pyStr right))
    | l, .strV s =>
      if l.isNum then
        if s.data.contains '.' then
          match pyDecOfString s with
          | some (n, d) => .dec l.toNum 1 n d
          | none => .pair (.strV (pyStr l)) (.strV s)
        else
          match pyIntOfString s with
          | some n => .pair l (.intV n)
          | none => .pair (.strV (pyStr l)) (.strV s)
      else .pair (.strV (pyStr left)) (.strV (pyStr right))
    | _, _ => .pair (.strV (pyStr left)) (.strV (pyStr right))

/-- Comparison of two already-normalized non-NULL values under a Python
comparison operator.  Python `==` / `!=` between distinct kinds yields
False / True; ordering between distinct kinds raises TypeError, which
`_compare_values` catches and turns into False.  An unrecognized operator
raises `ExpressionError` (modelled as none). -/
def pyCompareOp (l r : Value) (op : String) : Option Bool :=
  let eqv : Bool :=
    if l.isNum && r.isNum then l.toNum == r.toNum
    else match l, r with
      | .strV a, .strV b => a == b
      | _, _ => false
  let ordv : (Int → Int → Bool) → (String → String → Bool) → Bool := fun fi fs =>
    if l.isNum && r.isNum then fi l.toNum r.toNum
    else match l, r with
      | .strV a, .strV b => fs a b
      | _, _ => false
  if op = "=" ∨ op = "==" then some eqv
  else if op = "!=" ∨ op = "<>" ∨ op = "≠" then some (!eqv)
  else if op = "<" then some (ordv (fun a b => a < b) (fun a b => a < b))
  else if op = "<=" then some (ordv (fun a b => a ≤ b) (fun a b => a ≤ b))
  else if op = ">" then some (ordv (fun a b => a > b) (fun a b => a > b))
  else if op = ">=" then some (ordv (fun a b => a ≥ b) (fun a b => a ≥ b))
  else none

/-- Comparison of two exact decimals `n1/d1` and `n2/d2` (the float branch
of `_normalize_types`). -/
def pyCompareDec (n1 : Int) (d1 : Nat) (n2 : Int) (d2 : Nat) (op : String) :
    Option Bool :=
  let a := n1 * (d2 : Int)
  let b := n2 * (d1 : Int)
  if op = "=" ∨ op = "==" then some (a == b)
  else if op = "!=" ∨ op = "<>" ∨ op = "≠" then some (a != b)
  else if op = "<" then some (a < b)
  else if op = "<=" then some (a ≤ b)
  else if op = ">" then some (a > b)
  else if op = ">=" then some (a ≥ b)
  else none

/-- `ExpressionEvaluator._compare_values` (expressions.py lines 210-245).
NULL handling comes first: `=`-like operators test whether both sides are
None, `!=`-like operators the negation, and every other operator yields
False when a NULL is involved.  Otherwise the values are normalized and
compared. -/
def compareValues (left right : Value) (op : String) : Option Bool :=
  if left = .nullV ∨ right = .nullV then
    if op = "=" ∨ op = "==" then
      some (decide (left = .nullV) && decide (right = .nullV))
    else if op = "!=" ∨ op = "<>" ∨ op = "≠" then
      some (!(decide (left = .nullV) && decide (right = .nullV)))
    else some false
  else
    match normalizeTypes left right with
    | .pair l r => pyCompareOp l r op
    | .dec n1 d1 n2 d2 => pyCompareDec n1 d1 n2 d2 op

/-- Raw Python `a <= b` on values: defined between two numbers and between
two strings, a TypeError (none) otherwise.  Used by `_eval_between`, which
compares without normalizing. -/
def pyLe : Value → Value → Option Bool
  | .strV a, .strV b => some (a ≤ b)
  | l, r => if l.isNum && r.isNum then some (l.toNum ≤ r.toNum) else none

mutual

/-- `ExpressionEvaluator._get_value` (expressions.py lines 184-208): an
explicit literal dict yields its value, another dict is evaluated
recursively, a string is a column reference when the row has that key and a
literal string otherwise, anything else is returned as-is. -/
def getValue (o : Operand) (row : Row) : Option Value :=
  match o with
  | .lit v => some v
  | .sub e => evaluate e row
  | .str s =>
    match rowGet row s with
    | some v => some v
    | none => some (.strV s)
  | .val v => some v

/-- The argument of a logical operator goes through `evaluate` itself:
a non-dict value is returned unchanged. -/
def evalArg (a : EvalArg) (row : Row) : Option Value :=
  match a with
  | .val v => some v
  | .sub e => evaluate e row

/-- `ExpressionEvaluator.evaluate` restricted to the embedded fragment,
together with `_eval_compare`, `_eval_between`, `_eval_is_null`,
`_eval_and`, `_eval_or` and `_eval_not` (expressions.py lines 55-179).
`_eval_between` returns False when any of the three values is None, and
evaluates the chained Python comparison `min <= value <= max`, catching
TypeError as False.  The logical operators short-circuit on Python
truthiness and always return a bool. -/
def evaluate (e : Expr) (row : Row) : Option Value :=
  match e with
  | .cmp l op r => do
    let lv ← getValue l row
    let rv ← getValue r row
    let b ← compareValues lv rv op
    pure (.boolV b)
  | .between l lo hi => do
    let v ← getValue l row
    let mn ← getValue lo row
    let mx ← getValue hi row
    if v = .nullV ∨ mn = .nullV ∨ mx = .nullV then pure (.boolV false)
    else
      pure (.boolV (match pyLe mn v with
        | none => false
        | some false => false
        | some true => (pyLe v mx).getD false))
  | .isNullE l checkNull => do
    let v ← getValue l row
    pure (.boolV (if checkNull then v = .nullV else v ≠ .nullV))
  | .andE l r => do
    let lv ← evalArg l row
    if !lv.truthy then pure (.boolV false)
    else do
      let rv ← evalArg r row
      pure (.boolV rv.truthy)
  | .orE l r => do
    let lv ← evalArg l row
    if lv.truthy then pure (.boolV true)
    else do
      let rv ← evalArg r row
      pure (.boolV rv.truthy)
  | .notE c => do
    let cv ← evalArg c row
    pure (.boolV (!cv.truthy))

end

/-- A value that is NULL or an integer. -/
def intOrNull (v : Value) : Prop := v = .nullV ∨ ∃ n, v = .intV n

/-- A value that is NULL or a string. -/
def strOrNull (v : Value) : Prop := v = .nullV ∨ ∃ s, v = .strV s

/-! ## Bytes

Python `bytes` objects are modelled as lists of naturals below 256 (below
256 by construction in every producer). -/

/-- `struct.pack('<H', n)` for `n < 65536`; `struct.error` otherwise. -/
def packU16 (n : Nat) : Option (List Nat) :=
  if n < 65536 then some [n % 256, n / 256] else none

/-- `struct.unpack('<H', bs[i:i+2])`.  Every call site has first checked
that the two bytes exist, so reading past the end (modelled by `getD 0`)
does not occur. -/
def readU16 (bs : List Nat) (i : Nat) : Nat :=
  bs.getD i 0 + 256 * bs.getD (i + 1) 0

/-- `struct.pack('<i', v)`: four bytes, little-endian, two's complement;
`struct.error` outside the signed 32-bit range. -/
def packI32 (v : Int) : Option (List Nat) :=
  if -2147483648 ≤ v ∧ v < 2147483648 then
    some (let m := (v % 4294967296).toNat
      [m % 256, m / 256 % 256, m / 65536 % 256, m / 16777216 % 256])
  else none

/-- `struct.unpack('<i', bs[i:i+4])`. -/
def readI32 (bs : List Nat) (i : Nat) : Int :=
  let m := bs.getD i 0 + 256 * bs.getD (i + 1) 0 + 65536 * bs.getD (i + 2) 0 +
    16777216 * bs.getD (i + 3) 0
  if m < 2147483648 then (m : Int) else (m : Int) - 4294967296

/-! ## UTF-8

Python `str.encode('utf-8')` / `bytes.decode('utf-8')`.  The encoder maps
each scalar value to 1-4 bytes; the decoder is strict (it rejects overlong
forms, surrogates and out-of-range lead bytes, as CPython does). -/

/-- UTF-8 encoding of one scalar value. -/
def utf8EncodeChar (n : Nat) : List Nat :=
  if n < 128 then [n]
  else if n < 2048 then [192 + n / 64, 128 + n % 64]
  else if n < 65536 then [224 + n / 4096, 128 + n / 64 % 64, 128 + n % 64]
  else [240 + n / 262144, 128 + n / 4096 % 64, 128 + n / 64 % 64, 128 + n % 64]

/-- `s.encode('utf-8')`. -/
def utf8Encode (s : String) : List Nat :=
  s.data.foldr (fun c acc => utf8EncodeChar c.toNat ++ acc) []

/-! `bytes.decode('utf-8')`; none models UnicodeDecodeError.  The decoder
dispatches on the lead byte; continuation bytes are consumed by the
`utf8DecodeTail*` helpers, with the restricted ranges CPython enforces for
E0/ED (no overlong forms, no surrogates) and F0/F4 (no overlong forms,
nothing above U+10FFFF). -/
mutual

/-- Lead-byte dispatch of the UTF-8 decoder. -/
def utf8Decode : List Nat → Option (List Char)
  | [] => some []
  | b0 :: rest =>
    if b0 < 128 then (utf8Decode rest).map (fun cs => Char.ofNat b0 :: cs)
    else if 194 ≤ b0 ∧ b0 ≤ 223 then utf8DecodeTail2 b0 rest
    else if 224 ≤ b0 ∧ b0 ≤ 239 then utf8DecodeTail3 b0 rest
    else if 240 ≤ b0 ∧ b0 ≤ 244 then utf8DecodeTail4 b0 rest
    else none
termination_by bs => bs.length

def utf8DecodeTail2 (b0 : Nat) : List Nat → Option (List Char)
  | b1 :: rest2 =>
    if 128 ≤ b1 ∧ b1 ≤ 191 then
      (utf8Decode rest2).map
        (fun cs => Char.ofNat ((b0 - 192) * 64 + (b1 - 128)) :: cs)
    else none
  | [] => none
termination_by bs => bs.length

def utf8DecodeTail3 (b0 : Nat) : List Nat → Option (List Char)
  | b1 :: b2 :: rest3 =>
    if (if b0 = 224 then 160 else 128) ≤ b1 ∧
        b1 ≤ (if b0 = 237 then 159 else 191) ∧ 128 ≤ b2 ∧ b2 ≤ 191 then
      (utf8Decode rest3).map
        (fun cs =>
          Char.ofNat ((b0 - 224) * 4096 + (b1 - 128) * 64 + (b2 - 128)) :: cs)
    else none
  | _ => none
termination_by bs => bs.length

def utf8DecodeTail4 (b0 : Nat) : List Nat → Option (List Char)
  | b1 :: b2 :: b3 :: rest4 =>
    if (if b0 = 240 then 144 else 128) ≤ b1 ∧
        b1 ≤ (if b0 = 244 then 143 else 191) ∧
        128 ≤ b2 ∧ b2 ≤ 191 ∧ 128 ≤ b3 ∧ b3 ≤ 191 then
      (utf8Decode rest4).map
        (fun cs =>
          Char.ofNat ((b0 - 240) * 262144 + (b1 - 128) * 4096 +
            (b2 - 128) * 64 + (b3 - 128)) :: cs)
    else none
  | _ => none
termination_by bs => bs.length

end

/-! ## Record codec (src/storage/serdes.py)

Record layout: NULL bitmap (⌈n/8⌉ bytes, bit i set means column i is NULL),
then a column offset table (2 bytes per column, 0 for NULL columns), then
the variable-length data region.  INT encodes as 4 bytes little-endian
signed; VARCHAR as a 2-byte length followed by UTF-8 data. -/

/-- A column's declared type: `ColumnType.INT` or `ColumnType.VARCHAR` with
its `max_length`. -/
inductive ColType where
  | int
  | varchar (maxLength : Nat)
  deriving Repr, DecidableEq

/-- `ColumnDef` from serdes.py: a name and a type. -/
structure ColumnDef where
  name : String
  type : ColType
  deriving Repr, DecidableEq

/-- `math.ceil(column_count / 8)`. -/
def nullBitmapSize (n : Nat) : Nat := (n + 7) / 8

/-- `null_bitmap_size + 2 * column_count`. -/
def headerSize (n : Nat) : Nat := nullBitmapSize n + 2 * n

/-- `RecordEncoder._encode_value` (serdes.py lines 122-147).  For an INT
column a non-int value is first coerced with Python `int()` (a bool passes
the isinstance check and packs as 0/1; an unparsable string is a
ValueError).  For a VARCHAR column a non-str value is first coerced with
Python `str()`; then the UTF-8 length is checked against `max_length` and
the length-prefixed bytes are produced. -/
def encodeValue (col : ColumnDef) (v : Value) : Option (List Nat) :=
  match col.type with
  | .int =>
    match v with
    | .intV n => packI32 n
    | .boolV b => packI32 (if b then 1 else 0)
    | .strV s =>
      match pyIntOfString s with
      | some n => packI32 n
      | none => none
    | .nullV => none
  | .varchar m =>
    let s := match v with | .strV t => t | w => pyStr w
    let bytes := utf8Encode s
    if bytes.length > m then none
    else (packU16 bytes.length).map (fun lenB => lenB ++ bytes)

/-- The column loop of `RecordEncoder.encode` (serdes.py lines 86-104):
produces the NULL flags, the offset of each column (0 for NULL columns,
a running offset starting at `header_size` otherwise) and the list of
encoded data parts.  `row_data.get(col.name)` yields None both for a
missing key and for an explicit NULL. -/
def encodeCols (cols : List ColumnDef) (row : Row) (cur : Nat) :
    Option (List Bool × List Nat × List (List Nat)) :=
  match cols with
  | [] => some ([], [], [])
  | col :: rest =>
    match rowGet row col.name with
    | none =>
      (encodeCols rest row cur).map (fun (ns, os, ps) => (true :: ns, 0 :: os, ps))
    | some .nullV =>
      (encodeCols rest row cur).map (fun (ns, os, ps) => (true :: ns, 0 :: os, ps))
    | some v => do
      let bytes ← encodeValue col v
      let (ns, os, ps) ← encodeCols rest row (cur + bytes.length)
      pure (false :: ns, cur :: os, bytes :: ps)

/-- The NULL bitmap assembly of `RecordEncoder.encode`: a zeroed bytearray
of `null_bitmap_size` bytes, with bit `i % 8` of byte `i / 8` set for every
NULL column `i`. -/
def buildNullBitmap (size : Nat) (nulls : List Bool) : List Nat :=
  (List.range nulls.length).foldl
    (fun bm i =>
      if nulls.getD i false then
        bm.set (i / 8) (bm.getD (i / 8) 0 ||| (1 <<< (i % 8)))
      else bm)
    (List.replicate size 0)

/-- The offset-table assembly of `RecordEncoder.encode`: each offset packed
as u16 little-endian; `struct.error` (none) if an offset exceeds 65535. -/
def packOffsets : List Nat → Option (List Nat)
  | [] => some []
  | o :: os => do
    let b ← packU16 o
    let rest ← packOffsets os
    pure (b ++ rest)

/-- `RecordEncoder.encode` (serdes.py lines 68-120): NULL bitmap, then the
offset table, then the concatenated data parts. -/
def encodeRecord (cols : List ColumnDef) (row : Row) : Option (List Nat) := do
  let (ns, os, ps) ← encodeCols cols row (headerSize cols.length)
  let offsetBytes ← packOffsets os
  pure (buildNullBitmap (nullBitmapSize cols.length) ns ++ offsetBytes ++ ps.flatten)

/-- `RecordDecoder._decode_value` (serdes.py lines 207-232): INT reads 4
bytes at the offset; VARCHAR reads a u16 length then that many bytes of
UTF-8; all reads are bounds-checked against the record length. -/
def decodeValue (col : ColumnDef) (record : List Nat) (off : Nat) : Option Value :=
  match col.type with
  | .int =>
    if off + 4 > record.length then none
    else some (.intV (readI32 record off))
  | .varchar _ =>
    if off + 2 > record.length then none
    else
      let strLen := readU16 record off
      if off + 2 + strLen > record.length then none
      else
        (utf8Decode ((record.drop (off + 2)).take strLen)).map
          (fun cs => .strV (String.mk cs))

/-- The column loop of `RecordDecoder.decode` (serdes.py lines 187-203):
column `i` is NULL when its bitmap bit is set; otherwise its offset is read
from the offset table (an offset of 0 for a non-NULL column is an error)
and its value decoded.  `n` is the schema's column count. -/
def decodeColsLoop (cols : List ColumnDef) (i : Nat) (record bitmap : List Nat)
    (n : Nat) : Option Row :=
  match cols with
  | [] => some []
  | col :: rest =>
    if (bitmap.getD (i / 8) 0 &&& (1 <<< (i % 8))) ≠ 0 then
      (decodeColsLoop rest (i + 1) record bitmap n).map
        (fun r => (col.name, Value.nullV) :: r)
    else
      let off := readU16 record (nullBitmapSize n + 2 * i)
      if off = 0 then none
      else do
        let v ← decodeValue col record off
        let r ← decodeColsLoop rest (i + 1) record bitmap n
        pure ((col.name, v) :: r)

/-- `RecordDecoder.decode` (serdes.py lines 160-205). -/
def decodeRecord (cols : List ColumnDef) (record : List Nat) : Option Row :=
  if record.length < headerSize cols.length then none
  else
    decodeColsLoop cols 0 record (record.take (nullBitmapSize cols.length))
      cols.length

/-- Validity of a row value for a column, exactly as claimed for the
round-trip property: NULL, or a signed 32-bit integer for an INT column, or
a string whose UTF-8 encoding fits `max_length` for a VARCHAR column. -/
def validForCol (col : ColumnDef) : Option Value → Prop
  | some .nullV => True
  | some (.intV n) => col.type = .int ∧ -2147483648 ≤ n ∧ n < 2147483648
  | some (.strV s) => ∃ m, col.type = .varchar m ∧ (utf8Encode s).length ≤ m
  | some (.boolV _) => False
  | none => False

/-- A row is valid under a schema when its key set is exactly the schema's
column-name set and every column's value satisfies `validForCol`. -/
def rowValid (cols : List ColumnDef) (row : Row) : Prop :=
  (∀ k, (rowGet row k).isSome ↔ k ∈ cols.map ColumnDef.name) ∧
  ∀ col ∈ cols, validForCol col (rowGet row col.name)

/-! ## SlottedPage (page.py)

A 4096-byte slotted page: 14-byte header `'<HIHHI'` (magic, page_id,
data_start, slot_count, flags), then 5-byte slots `'<HHB'` (offset, length,
tomb), free space, and records growing down from the page end.  The Python
bytearray is a list of naturals; exact-length slice assignment
`data[o:o+len(bs)] = bs` is `writeBytes`. -/

/-- `data[off:off+len(bs)] = bs` (the slice always has the bytes' length at
every call site, so the list length is preserved). -/
def writeBytes (d : List Nat) (off : Nat) (bs : List Nat) : List Nat :=
  d.take off ++ bs ++ d.drop (off + bs.length)

/-- `struct.unpack('<I', bs[i:i+4])`. -/
def readU32 (bs : List Nat) (i : Nat) : Nat :=
  bs.getD i 0 + 256 * bs.getD (i + 1) 0 + 65536 * bs.getD (i + 2) 0 +
    16777216 * bs.getD (i + 3) 0

/-- The bytes `struct.pack('<H', n)` produces; every header/slot field the
page packs is below 65536 (data_start and offsets are at most 4096, lengths
and slot counts are bounded by them), where this agrees with `packU16`. -/
def u16le (n : Nat) : List Nat := [n % 256, n / 256 % 256]

/-- The bytes `struct.pack('<I', n)` produces for `n < 2^32`. -/
def u32le (n : Nat) : List Nat :=
  [n % 256, n / 256 % 256, n / 65536 % 256, n / 16777216 % 256]

/-- `struct.pack('<HIHHI', MAGIC_NUMBER, page_id, data_start, slot_count,
flags)`: the 14 header bytes. -/
def pageHeaderBytes (pageId dataStart slotCount flags : Nat) : List Nat :=
  u16le 0x4D53 ++ u32le pageId ++ u16le dataStart ++ u16le slotCount ++
    u32le flags

/-- A `SlottedPage`: its id and its 4096-byte bytearray. -/
structure Page where
  pageId : Nat
  data : List Nat
  deriving Repr, DecidableEq

/-- `_init_empty_page` on a fresh bytearray (`SlottedPage(page_id)`):
data_start = 4096, slot_count = 0, flags = 0. -/
def Page.init (pageId : Nat) : Page :=
  ⟨pageId, writeBytes (List.replicate 4096 0) 0
    (pageHeaderBytes pageId 4096 0 0)⟩

/-- `data_start` from `_get_header_info` ('<H' at byte 6). -/
def Page.dataStart (p : Page) : Nat := readU16 p.data 6

/-- `slot_count` from `_get_header_info` ('<H' at byte 8). -/
def Page.slotCount (p : Page) : Nat := readU16 p.data 8

/-- `flags` from `_get_header_info` ('<I' at byte 10). -/
def Page.flags (p : Page) : Nat := readU32 p.data 10

/-- `_set_header_info`. -/
def Page.setHeader (p : Page) (dataStart slotCount flags : Nat) : Page :=
  ⟨p.pageId,
    writeBytes p.data 0 (pageHeaderBytes p.pageId dataStart slotCount flags)⟩

/-- `_get_slot_info`: none is the IndexError for an out-of-range slot id
(negative ids do not occur at any call site). -/
def Page.getSlotInfo (p : Page) (slotId : Nat) : Option (Nat × Nat × Bool) :=
  if slotId ≥ p.slotCount then none
  else some (readU16 p.data (14 + slotId * 5),
    readU16 p.data (14 + slotId * 5 + 2),
    p.data.getD (14 + slotId * 5 + 4) 0 ≠ 0)

/-- `_set_slot_info`. -/
def Page.setSlotInfo (p : Page) (slotId off len : Nat) (del : Bool) : Page :=
  ⟨p.pageId, writeBytes p.data (14 + slotId * 5)
    (u16le off ++ u16le len ++ [if del then 1 else 0])⟩

/-- `get_free_space`: `data_start - (HEADER_SIZE + slot_count * SLOT_SIZE)`,
a Python int that can be negative on a corrupt page. -/
def Page.freeSpace (p : Page) : Int :=
  (p.dataStart : Int) - (14 + p.slotCount * 5)

/-- The three outcomes of `SlottedPage.insert`: a slot id, -1 for
insufficient space, or the ValueError raised for an empty record. -/
inductive InsertResult
  | ok (slotId : Nat)
  | pageFull
  | emptyRecord
  deriving Repr, DecidableEq

/-- `SlottedPage.insert`: empty records raise ValueError; then the space
check `free_space < len(record) + SLOT_SIZE` returns -1; otherwise the
record is written at `data_start - len(record)`, a slot is appended and
the header updated. -/
def Page.insert (p : Page) (record : List Nat) : InsertResult × Page :=
  if record.length = 0 then (.emptyRecord, p)
  else
    let ds := p.dataStart
    let sc := p.slotCount
    let fl := p.flags
    if p.freeSpace < record.length + 5 then (.pageFull, p)
    else
      let nds := ds - record.length
      let p1 : Page := ⟨p.pageId, writeBytes p.data nds record⟩
      let p2 := p1.setSlotInfo sc nds record.length false
      let p3 := p2.setHeader nds (sc + 1) fl
      (.ok sc, p3)

/-- `SlottedPage.read`: none is the IndexError for a bad slot id or the
ValueError for a tombstoned slot; `self.data[offset:offset+length]`. -/
def Page.read (p : Page) (slotId : Nat) : Option (List Nat) :=
  match p.getSlotInfo slotId with
  | none => none
  | some (off, len, del) =>
    if del then none else some ((p.data.drop off).take len)

/-- `SlottedPage.delete`: none is the IndexError from `_get_slot_info`;
already-deleted slots are left alone. -/
def Page.delete (p : Page) (slotId : Nat) : Option Page :=
  match p.getSlotInfo slotId with
  | none => none
  | some (off, len, del) =>
    if del then some p else some (p.setSlotInfo slotId off len true)

/-- `SlottedPage.is_deleted`: IndexError is reported as deleted. -/
def Page.isDeleted (p : Page) (slotId : Nat) : Bool :=
  match p.getSlotInfo slotId with
  | none => true
  | some (_, _, del) => del

/-- `get_slot_count`. -/
def Page.getSlotCount (p : Page) : Nat := p.slotCount

/-- `get_active_slots`. -/
def Page.getActiveSlots (p : Page) : List Nat :=
  (List.range p.getSlotCount).filter (fun s => !p.isDeleted s)

/-- `get_all_records` (the try/except around `read` is the filterMap). -/
def Page.getAllRecords (p : Page) : List (Nat × List Nat) :=
  p.getActiveSlots.filterMap (fun s => (p.read s).map (fun d => (s, d)))

/-- `SlottedPage.from_bytes` / `_load_from_bytes`: none models the
ValueError for a wrong length, magic number, or stored page id. -/
def Page.fromBytes (pageId : Nat) (raw : List Nat) : Option Page :=
  if raw.length ≠ 4096 then none
  else if readU16 raw 0 ≠ 0x4D53 then none
  else if readU32 raw 2 ≠ pageId then none
  else some ⟨pageId, raw⟩

/-- Well-formedness a page reachable by the page operations maintains: a
4096-byte array, slots that fit below data_start, data_start inside the
page, and flags in unsigned 32-bit range. -/
def pageWF (p : Page) : Prop :=
  p.data.length = 4096 ∧ 14 + 5 * p.slotCount ≤ p.dataStart ∧
  p.dataStart ≤ 4096 ∧ p.flags < 4294967296

/-- The pages reachable from a fresh page by the page API: `SlottedPage()`,
`insert`, `delete`, and `from_bytes(to_bytes())` (page id preserved, as at
every call site of the storage engine). -/
inductive PageReachable : Page → Prop
  | init (pageId : Nat) : PageReachable (Page.init pageId)
  | insert (p : Page) (record : List Nat) (h : PageReachable p) :
      PageReachable (p.insert record).2
  | delete (p q : Page) (slotId : Nat) (h : PageReachable p)
      (hd : p.delete slotId = some q) : PageReachable q
  | roundtrip (p q : Page) (h : PageReachable p)
      (hq : Page.fromBytes p.pageId p.data = some q) : PageReachable q

/-! ## update_where (storage_engine.py lines 376-447)

The per-page loop reads each slot of the initial `range(slot_count)`
snapshot, skips tombstoned slots, decodes, tests the predicate, applies the
update function, re-encodes, tombstones the old slot and inserts the new
record into the same page; the bare `except` turns any failure of a step
(decode error, update function raising, encode error, the ValueError of an
empty-record insert) into skipping that slot.  `updated_count` grows only
when the same-page insert returns a slot id. -/

/-- One page's slot loop.  `f` returns none where `update_func` raises. -/
def updateWhereSlots (cols : List ColumnDef) (pred : Row → Bool)
    (f : Row → Option Row) :
    List Nat → Page → Nat → Bool → Page × Nat × Bool
  | [], p, cnt, md => (p, cnt, md)
  | s :: rest, p, cnt, md =>
    if p.isDeleted s then updateWhereSlots cols pred f rest p cnt md
    else
      match p.read s with
      | none => updateWhereSlots cols pred f rest p cnt md
      | some bytes =>
        match decodeRecord cols bytes with
        | none => updateWhereSlots cols pred f rest p cnt md
        | some row =>
          if pred row then
            match f row with
            | none => updateWhereSlots cols pred f rest p cnt md
            | some updated =>
              match encodeRecord cols updated with
              | none => updateWhereSlots cols pred f rest p cnt md
              | some newBytes =>
                match p.delete s with
                | none => updateWhereSlots cols pred f rest p cnt md
                | some p1 =>
                  match p1.insert newBytes with
                  | (.ok _, p2) =>
                    updateWhereSlots cols pred f rest p2 (cnt + 1) true
                  | (.pageFull, p2) =>
                    updateWhereSlots cols pred f rest p2 cnt md
                  | (.emptyRecord, p2) =>
                    updateWhereSlots cols pred f rest p2 cnt md
          else updateWhereSlots cols pred f rest p cnt md

/-- `update_where`'s body for one page: the `range(page.get_slot_count())`
snapshot is taken before any mutation. -/
def updateWherePage (cols : List ColumnDef) (pred : Row → Bool)
    (f : Row → Option Row) (p : Page) : Page × Nat × Bool :=
  updateWhereSlots cols pred f (List.range p.getSlotCount) p 0 false

/-- `update_where` over a table's pages: each page is processed
independently and written back in place; the page list never grows (the
method has no page-allocation path) and the returned count is the sum of
the per-page counts. -/
def updateWhereTable (cols : List ColumnDef) (pred : Row → Bool)
    (f : Row → Option Row) : List Page → List Page × Nat
  | [] => ([], 0)
  | p :: rest =>
    let r := updateWherePage cols pred f p
    let t := updateWhereTable cols pred f rest
    (r.1 :: t.1, r.2.1 + t.2)

/-! ## Foreign-key validation (constraint_validator.py, executor.py)

Decoded rows are Python dicts (`Row`); the `seq_scan` a validator performs
over a parent or child table is modelled by the list of that table's
decoded rows.  A validator that raises `ForeignKeyValidationError` is
modelled as returning false. -/

/-- A foreign key of the table being checked (child side):
`fk.column_name`, `fk.ref_column_name`, and the decoded rows `seq_scan`
yields for the referenced parent table. -/
structure ChildFK where
  column : String
  refColumn : String
  parentRows : List Row

/-- A foreign key REFERENCING the table being checked: the child table's
column, the referenced column, and the decoded rows `seq_scan` yields for
the child table. -/
structure RefFK where
  column : String
  refColumn : String
  childRows : List Row

/-- `_parent_key_exists` (constraint_validator.py lines 166-182):
`row.get(ref_column) == value` over a scan of the parent table (decoded
rows hold only INT/VARCHAR/NULL values, where Python `==` is plain
equality and `None == v` is false for non-None `v`). -/
def parentKeyExists (parentRows : List Row) (refColumn : String)
    (v : Value) : Bool :=
  parentRows.any (fun row => (rowGet row refColumn).getD Value.nullV == v)

/-- `_child_key_exists` (lines 184-200). -/
def childKeyExists (childRows : List Row) (column : String) (v : Value) :
    Bool :=
  childRows.any (fun row => (rowGet row column).getD Value.nullV == v)

/-- `validate_update_foreign_keys` (lines 61-96): for each child-side FK,
an unchanged value is skipped, NULL is allowed, otherwise the new value
must exist in the parent. -/
def validateUpdateForeignKeys (fks : List ChildFK) (oldRow newRow : Row) :
    Bool :=
  fks.all (fun fk =>
    let oldV := (rowGet oldRow fk.column).getD Value.nullV
    let newV := (rowGet newRow fk.column).getD Value.nullV
    if oldV == newV then true
    else if newV == Value.nullV then true
    else parentKeyExists fk.parentRows fk.refColumn newV)

/-- `validate_update_referenced_keys` (lines 129-164): for each FK
referencing this table, an unchanged referenced value is skipped, a NULL
old value is skipped, otherwise no child row may still reference the old
value (RESTRICT). -/
def validateUpdateReferencedKeys (fks : List RefFK) (oldRow newRow : Row) :
    Bool :=
  fks.all (fun fk =>
    let oldV := (rowGet oldRow fk.refColumn).getD Value.nullV
    let newV := (rowGet newRow fk.refColumn).getD Value.nullV
    if oldV == newV then true
    else if oldV == Value.nullV then true
    else !(childKeyExists fk.childRows fk.column oldV))

/-- Modelled from the spec: the dispatcher
`catalog_mgr.validate_foreign_key_constraints(op, table, new_row, old_row)`
is called from executor.py (lines 193, 492, 554) but absent from
catalog_mgr.py.  Per the spec ("Update(table, set, child?): ...
foreign-key validation runs on new values" and the RESTRICT semantics of
the foreign-key scenario), for an UPDATE it runs the child-side check on
the changed FK values and the RESTRICT check for keys referencing the
updated row, raising on the first violation (false). -/
def validateForeignKeyConstraintsUpdate (outFks : List ChildFK)
    (refFks : List RefFK) (oldRow newRow : Row) : Bool :=
  validateUpdateForeignKeys outFks oldRow newRow &&
  validateUpdateReferencedKeys refFks oldRow newRow

/-- `UpdateOperator`'s `update_func` (executor.py lines 546-558): apply
the SET assignments to a copy of the row, then run the dispatcher; a
validation failure is re-raised as ExecutionError — modelled as none,
which `update_where`'s per-slot bare except then swallows. -/
def updateFunc (setList : List (String × Value)) (outFks : List ChildFK)
    (refFks : List RefFK) (row : Row) : Option Row :=
  let updated := setList.foldl (fun r kv => rowSet r kv.1 kv.2) row
  if validateForeignKeyConstraintsUpdate outFks refFks row updated
  then some updated else none

/-! ## BufferPool (buffer.py)

The LRU `OrderedDict` and the FIFO dict-plus-deque are both modelled as
one association list in EVICTION order (head is evicted first): for LRU
the order is recency (move-to-end on hit and on add), for FIFO insertion
order (an existing key keeps its position, as the deque is only appended
for new keys).  `dirty_pages` is a set of keys, kept as a duplicate-free
list; the disk state is the FileManager's page store, a function from
(table, page id) to page bytes. -/

/-- The two replacement policies the constructor accepts. -/
inductive Policy
  | lru
  | fifo
  deriving Repr, DecidableEq

structure BufferPool where
  capacity : Nat
  policy : Policy
  cache : List ((String × Nat) × Page)
  dirty : List (String × Nat)
  disk : String → Nat → List Nat

/-- `BufferPool(file_manager, capacity, policy)` right after construction
(the constructor raises for capacity ≤ 0). -/
def BufferPool.mk0 (capacity : Nat) (policy : Policy)
    (disk : String → Nat → List Nat) : BufferPool :=
  ⟨capacity, policy, [], [], disk⟩

/-- `cache_key in self.cache` / `self.cache[cache_key]`. -/
def cacheLookup (cache : List ((String × Nat) × Page)) (k : String × Nat) :
    Option Page :=
  match cache with
  | [] => none
  | (k0, p) :: rest => if k0 = k then some p else cacheLookup rest k

/-- Removing a key from the cache (dict pop / deque removal). -/
def eraseKey (cache : List ((String × Nat) × Page)) (k : String × Nat) :
    List ((String × Nat) × Page) :=
  cache.filter (fun e => e.1 ≠ k)

/-- `file_manager.write_page`. -/
def writeDisk (disk : String → Nat → List Nat) (k : String × Nat)
    (bytes : List Nat) : String → Nat → List Nat :=
  fun t pid => if t = k.1 ∧ pid = k.2 then bytes else disk t pid

/-- `_evict_page` (buffer.py lines 155-182): both policies evict the head
of the order (LRU `popitem(last=False)`, FIFO `popleft`); a dirty victim
is written back and removed from the dirty set. -/
def BufferPool.evictOne (bp : BufferPool) : BufferPool :=
  match bp.cache with
  | [] => bp
  | (k, page) :: rest =>
    if bp.dirty.contains k then
      { bp with
          cache := rest
          dirty := bp.dirty.filter (fun d => d ≠ k)
          disk := writeDisk bp.disk k page.data }
    else
      { bp with cache := rest }

/-- `_add_to_cache` (lines 140-153): evict when the cache is full and the
key is new; LRU then inserts/updates and moves the key to the end, FIFO
appends new keys and updates existing ones in place. -/
def BufferPool.addEntry (bp1 : BufferPool) (k : String × Nat)
    (page : Page) : BufferPool :=
  match bp1.policy with
  | .lru => { bp1 with cache := eraseKey bp1.cache k ++ [(k, page)] }
  | .fifo =>
    match cacheLookup bp1.cache k with
    | some _ =>
      { bp1 with
          cache := bp1.cache.map (fun e => if e.1 = k then (k, page) else e) }
    | none => { bp1 with cache := bp1.cache ++ [(k, page)] }

def BufferPool.addToCache (bp : BufferPool) (k : String × Nat)
    (page : Page) : BufferPool :=
  (if bp.cache.length ≥ bp.capacity ∧ cacheLookup bp.cache k = none
    then bp.evictOne else bp).addEntry k page

/-- `get_page` (lines 90-120): on a hit LRU moves the key to the end; on a
miss the page is read from disk and added to the cache. -/
def BufferPool.getPage (bp : BufferPool) (t : String) (pid : Nat) :
    Page × BufferPool :=
  let k := (t, pid)
  match cacheLookup bp.cache k with
  | some p =>
    (p, match bp.policy with
      | .lru => { bp with cache := eraseKey bp.cache k ++ [(k, p)] }
      | .fifo => bp)
  | none =>
    let page : Page := ⟨pid, bp.disk t pid⟩
    (page, bp.addToCache k page)

/-- `put_page` (lines 122-138). -/
def BufferPool.putPage (bp : BufferPool) (t : String) (page : Page)
    (markDirty : Bool) : BufferPool :=
  let k := (t, page.pageId)
  let bp1 := bp.addToCache k page
  if markDirty then
    { bp1 with
        dirty := if bp1.dirty.contains k then bp1.dirty else bp1.dirty ++ [k] }
  else bp1

/-- One iteration of the flush loop of `flush_dirty_pages` (lines
203-214): a dirty key still in the cache is written back and removed from
the dirty set; a dirty key not in the cache is left alone. -/
def BufferPool.flushKey (bp : BufferPool) (k : String × Nat) : BufferPool :=
  match cacheLookup bp.cache k with
  | some p =>
    { bp with
        dirty := bp.dirty.filter (fun d => d ≠ k)
        disk := writeDisk bp.disk k p.data }
  | none => bp

/-- `flush_dirty_pages(table_name?)` (lines 184-219). -/
def BufferPool.flushDirtyPages (bp : BufferPool) (t : Option String) :
    BufferPool :=
  (bp.dirty.filter (fun k => match t with
    | none => true
    | some tn => k.1 = tn)).foldl BufferPool.flushKey bp

/-- One eviction of `evict_table_pages` (lines 240-260): pop from the
cache (and the FIFO queue), write back if dirty. -/
def BufferPool.evictKey (bp : BufferPool) (k : String × Nat) : BufferPool :=
  match cacheLookup bp.cache k with
  | some p =>
    if bp.dirty.contains k then
      { bp with
          cache := eraseKey bp.cache k
          dirty := bp.dirty.filter (fun d => d ≠ k)
          disk := writeDisk bp.disk k p.data }
    else
      { bp with cache := eraseKey bp.cache k }
  | none => bp

/-- `evict_table_pages(table)` (lines 221-268): the table's keys are
snapshotted from the cache, then evicted one by one. -/
def BufferPool.evictTablePages (bp : BufferPool) (t : String) : BufferPool :=
  ((bp.cache.map Prod.fst).filter (fun k => k.1 = t)).foldl
    BufferPool.evictKey bp

/-- `clear_cache` (lines 294-306): flush all dirty pages, then drop the
cache, queue and dirty set. -/
def BufferPool.clearCache (bp : BufferPool) : BufferPool :=
  let bp1 := bp.flushDirtyPages none
  { bp1 with cache := [], dirty := [] }

/-- `close` (lines 308-314): flush, then clear. -/
def BufferPool.closePool (bp : BufferPool) : BufferPool :=
  (bp.flushDirtyPages none).clearCache

/-- The buffer pool's public operations. -/
inductive BufferOp
  | get (t : String) (pid : Nat)
  | put (t : String) (page : Page) (markDirty : Bool)
  | flush (t : Option String)
  | evictTable (t : String)
  | clear
  | close

def applyOp (bp : BufferPool) : BufferOp → BufferPool
  | .get t pid => (bp.getPage t pid).2
  | .put t page d => bp.putPage t page d
  | .flush t => bp.flushDirtyPages t
  | .evictTable t => bp.evictTablePages t
  | .clear => bp.clearCache
  | .close => bp.closePool

def applyOps (bp : BufferPool) (ops : List BufferOp) : BufferPool :=
  ops.foldl applyOp bp

/-- The state invariant of the pool: positive capacity, a duplicate-free
dirty set whose keys are all cached, and a cache within capacity. -/
def poolWF (bp : BufferPool) : Prop :=
  1 ≤ bp.capacity ∧ bp.dirty.Nodup ∧
  (∀ k ∈ bp.dirty, k ∈ bp.cache.map Prod.fst) ∧
  bp.cache.length ≤ bp.capacity

end MoonSQL

/-! ## Theorems -/

namespace MoonSQL

/-! ### Byte-level helper lemmas -/

theorem getD_drop (l : List Nat) (n i : Nat) :
    (l.drop n).getD i 0 = l.getD (n + i) 0 := by
  simp [List.getD_eq_getD_get?, List.get?_drop]

theorem getD_append_mid (pre mid post : List Nat) (j : Nat) (h : j < mid.length) :
    (pre ++ mid ++ post).getD (pre.length + j) 0 = mid.getD j 0 := by
  rw [List.append_assoc, List.getD_append_right _ _ _ _ (Nat.le_add_right _ _),
    Nat.add_sub_cancel_left, List.getD_append _ _ _ _ h]

theorem packU16_length (n : Nat) (b : List Nat) (h : packU16 n = some b) :
    b.length = 2 := by
  unfold packU16 at h
  split at h
  · cases h; rfl
  · cases h

theorem packI32_length (v : Int) (b : List Nat) (h : packI32 v = some b) :
    b.length = 4 := by
  unfold packI32 at h
  split at h
  · cases h; rfl
  · cases h

/-- Reading back a packed signed 32-bit integer from anywhere in a byte
list. -/
theorem readI32_of_drop (record b4 tail : List Nat) (off : Nat) (v : Int)
    (hpack : packI32 v = some b4) (hdrop : record.drop off = b4 ++ tail) :
    readI32 record off = v := by
  have h0 : 0 ≤ v % 4294967296 := Int.emod_nonneg v (by norm_num)
  have h1 : v % 4294967296 < 4294967296 := Int.emod_lt_of_pos v (by norm_num)
  set m := (v % 4294967296).toNat with hmdef
  have hm : (m : Int) = v % 4294967296 := Int.toNat_of_nonneg h0
  have hb4 : b4 = [m % 256, m / 256 % 256, m / 65536 % 256, m / 16777216 % 256] ∧
      -2147483648 ≤ v ∧ v < 2147483648 := by
    unfold packI32 at hpack
    split at hpack
    case isTrue h => exact ⟨by cases hpack; rfl, h.1, h.2⟩
    case isFalse => cases hpack
  obtain ⟨hb4, hlo, hhi⟩ := hb4
  subst hb4
  have hget : ∀ j, record.getD (off + j) 0 =
      ([m % 256, m / 256 % 256, m / 65536 % 256, m / 16777216 % 256] ++
        tail).getD j 0 := by
    intro j
    rw [← hdrop, getD_drop]
  have hg0 := hget 0
  have hg1 := hget 1
  have hg2 := hget 2
  have hg3 := hget 3
  rw [Nat.add_zero] at hg0
  simp only [List.cons_append, List.nil_append, List.getD_cons_zero,
    List.getD_cons_succ] at hg0 hg1 hg2 hg3
  simp only [readI32, hg0, hg1, hg2, hg3]
  have hmlt : m < 4294967296 := by omega
  have hsum : m % 256 + 256 * (m / 256 % 256) + 65536 * (m / 65536 % 256) +
      16777216 * (m / 16777216 % 256) = m := by omega
  rw [hsum]
  split <;> omega

/-- Reading back a packed u16 from anywhere in a byte list. -/
theorem readU16_of_drop (record b2 tail : List Nat) (off n : Nat)
    (hpack : packU16 n = some b2) (hdrop : record.drop off = b2 ++ tail) :
    readU16 record off = n := by
  have hb2 : b2 = [n % 256, n / 256] ∧ n < 65536 := by
    unfold packU16 at hpack
    split at hpack
    case isTrue h => exact ⟨by cases hpack; rfl, h⟩
    case isFalse => cases hpack
  obtain ⟨hb2, hlt⟩ := hb2
  subst hb2
  have hget : ∀ j, record.getD (off + j) 0 =
      ([n % 256, n / 256] ++ tail).getD j 0 := by
    intro j
    rw [← hdrop, getD_drop]
  have hg0 := hget 0
  have hg1 := hget 1
  rw [Nat.add_zero] at hg0
  simp only [List.cons_append, List.nil_append, List.getD_cons_zero,
    List.getD_cons_succ] at hg0 hg1
  simp only [readU16, hg0, hg1]
  omega

/-! ### UTF-8 round trip -/

theorem utf8Decode_cons1 (b0 : Nat) (rest : List Nat) (h : b0 < 128) :
    utf8Decode (b0 :: rest) =
      (utf8Decode rest).map (fun cs => Char.ofNat b0 :: cs) := by
  rw [utf8Decode, if_pos h]

theorem utf8Decode_cons2 (b0 b1 : Nat) (rest : List Nat)
    (h0 : ¬b0 < 128) (h1 : 194 ≤ b0 ∧ b0 ≤ 223) (h2 : 128 ≤ b1 ∧ b1 ≤ 191) :
    utf8Decode (b0 :: b1 :: rest) =
      (utf8Decode rest).map
        (fun cs => Char.ofNat ((b0 - 192) * 64 + (b1 - 128)) :: cs) := by
  rw [utf8Decode, if_neg h0, if_pos h1, utf8DecodeTail2, if_pos h2]

theorem utf8Decode_cons3 (b0 b1 b2 : Nat) (rest : List Nat)
    (h0 : ¬b0 < 128) (h1 : ¬(194 ≤ b0 ∧ b0 ≤ 223)) (h2 : 224 ≤ b0 ∧ b0 ≤ 239)
    (h3 : (if b0 = 224 then 160 else 128) ≤ b1 ∧
      b1 ≤ (if b0 = 237 then 159 else 191) ∧ 128 ≤ b2 ∧ b2 ≤ 191) :
    utf8Decode (b0 :: b1 :: b2 :: rest) =
      (utf8Decode rest).map
        (fun cs =>
          Char.ofNat ((b0 - 224) * 4096 + (b1 - 128) * 64 + (b2 - 128)) :: cs) := by
  rw [utf8Decode, if_neg h0, if_neg h1, if_pos h2, utf8DecodeTail3, if_pos h3]

theorem utf8Decode_cons4 (b0 b1 b2 b3 : Nat) (rest : List Nat)
    (h0 : ¬b0 < 128) (h1 : ¬(194 ≤ b0 ∧ b0 ≤ 223)) (h2 : ¬(224 ≤ b0 ∧ b0 ≤ 239))
    (h2a : 240 ≤ b0 ∧ b0 ≤ 244)
    (h3 : (if b0 = 240 then 144 else 128) ≤ b1 ∧
      b1 ≤ (if b0 = 244 then 143 else 191) ∧
      128 ≤ b2 ∧ b2 ≤ 191 ∧ 128 ≤ b3 ∧ b3 ≤ 191) :
    utf8Decode (b0 :: b1 :: b2 :: b3 :: rest) =
      (utf8Decode rest).map
        (fun cs =>
          Char.ofNat ((b0 - 240) * 262144 + (b1 - 128) * 4096 +
            (b2 - 128) * 64 + (b3 - 128)) :: cs) := by
  rw [utf8Decode, if_neg h0, if_neg h1, if_neg h2, if_pos h2a, utf8DecodeTail4,
    if_pos h3]

theorem utf8Decode_encodeChar_append (c : Char) (bs : List Nat) :
    utf8Decode (utf8EncodeChar c.toNat ++ bs) =
      (utf8Decode bs).map (fun cs => c :: cs) := by
  have hval : c.toNat < 55296 ∨ (57344 ≤ c.toNat ∧ c.toNat < 1114112) := c.valid
  have hofn : Char.ofNat c.toNat = c := Char.ofNat_toNat c
  set n := c.toNat with hn
  by_cases h1 : n < 128
  · rw [show utf8EncodeChar n = [n] from by rw [utf8EncodeChar, if_pos h1],
      List.cons_append, List.nil_append, utf8Decode_cons1 n bs h1, hofn]
  · by_cases h2 : n < 2048
    · rw [show utf8EncodeChar n = [192 + n / 64, 128 + n % 64] from by
        rw [utf8EncodeChar, if_neg h1, if_pos h2]]
      have hm : n % 64 < 64 := Nat.mod_lt _ (by norm_num)
      rw [List.cons_append, List.cons_append, List.nil_append,
        utf8Decode_cons2 _ _ bs (by omega) (by omega) (by omega)]
      have he : (192 + n / 64 - 192) * 64 + (128 + n % 64 - 128) = n := by omega
      rw [he, hofn]
    · by_cases h3 : n < 65536
      · rw [show utf8EncodeChar n =
            [224 + n / 4096, 128 + n / 64 % 64, 128 + n % 64] from by
          rw [utf8EncodeChar, if_neg h1, if_neg h2, if_pos h3]]
        have hm1 : n / 64 % 64 < 64 := Nat.mod_lt _ (by norm_num)
        have hm2 : n % 64 < 64 := Nat.mod_lt _ (by norm_num)
        have hcond : (if 224 + n / 4096 = 224 then 160 else 128) ≤
              128 + n / 64 % 64 ∧
            128 + n / 64 % 64 ≤ (if 224 + n / 4096 = 237 then 159 else 191) ∧
            128 ≤ 128 + n % 64 ∧ 128 + n % 64 ≤ 191 := by
          refine ⟨?_, ?_, by omega, by omega⟩
          · split <;> omega
          · split
            · rcases hval with hv | hv <;> omega
            · omega
        rw [List.cons_append, List.cons_append, List.cons_append,
          List.nil_append,
          utf8Decode_cons3 _ _ _ bs (by omega) (by omega) (by omega) hcond]
        have he : (224 + n / 4096 - 224) * 4096 + (128 + n / 64 % 64 - 128) * 64 +
            (128 + n % 64 - 128) = n := by omega
        rw [he, hofn]
      · have hup : n < 1114112 := by rcases hval with hv | ⟨_, hv⟩ <;> omega
        rw [show utf8EncodeChar n =
            [240 + n / 262144, 128 + n / 4096 % 64, 128 + n / 64 % 64,
              128 + n % 64] from by
          rw [utf8EncodeChar, if_neg h1, if_neg h2, if_neg h3]]
        have hm1 : n / 4096 % 64 < 64 := Nat.mod_lt _ (by norm_num)
        have hm2 : n / 64 % 64 < 64 := Nat.mod_lt _ (by norm_num)
        have hm3 : n % 64 < 64 := Nat.mod_lt _ (by norm_num)
        have hcond : (if 240 + n / 262144 = 240 then 144 else 128) ≤
              128 + n / 4096 % 64 ∧
            128 + n / 4096 % 64 ≤ (if 240 + n / 262144 = 244 then 143 else 191) ∧
            128 ≤ 128 + n / 64 % 64 ∧ 128 + n / 64 % 64 ≤ 191 ∧
            128 ≤ 128 + n % 64 ∧ 128 + n % 64 ≤ 191 := by
          refine ⟨?_, ?_, by omega, by omega, by omega, by omega⟩
          · split <;> omega
          · split <;> omega
        rw [List.cons_append, List.cons_append, List.cons_append,
          List.cons_append, List.nil_append,
          utf8Decode_cons4 _ _ _ _ bs (by omega) (by omega) (by omega)
            (by omega) hcond]
        have he : (240 + n / 262144 - 240) * 262144 +
            (128 + n / 4096 % 64 - 128) * 4096 + (128 + n / 64 % 64 - 128) * 64 +
            (128 + n % 64 - 128) = n := by omega
        rw [he, hofn]

theorem utf8Decode_foldr (cs : List Char) :
    utf8Decode (cs.foldr (fun c acc => utf8EncodeChar c.toNat ++ acc) []) =
      some cs := by
  induction cs with
  | nil => rw [List.foldr_nil, utf8Decode]
  | cons c rest ih => rw [List.foldr_cons, utf8Decode_encodeChar_append, ih]; rfl

theorem utf8Decode_utf8Encode (s : String) :
    utf8Decode (utf8Encode s) = some s.data :=
  utf8Decode_foldr s.data

/-! ### NULL bitmap -/

theorem and_shift_ne_zero_iff (x k : Nat) :
    (x &&& (1 <<< k)) ≠ 0 ↔ x.testBit k = true := by
  rw [Nat.shiftLeft_eq, one_mul, Nat.and_two_pow]
  cases h : x.testBit k
  · simp
  · simp only [Bool.toNat_true, one_mul]
    constructor
    · intro _
      simp
    · intro _
      exact (Nat.two_pow_pos k).ne.symm

theorem getD_replicate_zero (size j : Nat) :
    (List.replicate size (0 : Nat)).getD j 0 = 0 := by
  rw [List.getD_eq_getD_get?]
  rcases h : (List.replicate size (0 : Nat)).get? j with _ | x
  · rfl
  · rw [List.eq_of_mem_replicate (List.get?_mem h)]
    rfl

theorem getD_set_eq' (l : List Nat) (m a : Nat) (h : m < l.length) :
    (l.set m a).getD m 0 = a := by
  rw [List.getD_eq_getD_get?, List.get?_set_eq_of_lt a h]
  rfl

theorem getD_set_ne' (l : List Nat) (m j a : Nat) (h : m ≠ j) :
    (l.set m a).getD j 0 = l.getD j 0 := by
  rw [List.getD_eq_getD_get?, List.get?_set_ne a l h, ← List.getD_eq_getD_get?]

theorem buildNullBitmap_spec (size : Nat) (nulls : List Bool)
    (hsz : ∀ i, i < nulls.length → i / 8 < size) :
    (buildNullBitmap size nulls).length = size ∧
    ∀ i, ((buildNullBitmap size nulls).getD (i / 8) 0).testBit (i % 8) =
      (decide (i < nulls.length) && nulls.getD i false) := by
  have main : ∀ t, t ≤ nulls.length →
      ((List.range t).foldl
        (fun bm i =>
          if nulls.getD i false then
            bm.set (i / 8) (bm.getD (i / 8) 0 ||| (1 <<< (i % 8)))
          else bm)
        (List.replicate size 0)).length = size ∧
      ∀ i, (((List.range t).foldl
        (fun bm i =>
          if nulls.getD i false then
            bm.set (i / 8) (bm.getD (i / 8) 0 ||| (1 <<< (i % 8)))
          else bm)
        (List.replicate size 0)).getD (i / 8) 0).testBit (i % 8) =
        (decide (i < t) && nulls.getD i false) := by
    intro t
    induction t with
    | zero =>
      intro _
      refine ⟨by simp, fun i => ?_⟩
      rw [List.range_zero, List.foldl_nil, getD_replicate_zero]
      simp
    | succ t ih =>
      intro ht
      obtain ⟨ihlen, ihbit⟩ := ih (Nat.le_of_succ_le ht)
      rw [List.range_succ, List.foldl_append, List.foldl_cons, List.foldl_nil]
      beta_reduce
      cases hnt : nulls.getD t false
      · rw [if_neg Bool.false_ne_true]
        refine ⟨ihlen, fun i => ?_⟩
        rw [ihbit i]
        by_cases hit : i = t
        · subst hit
          rw [hnt, Bool.and_false, Bool.and_false]
        · have hdec : decide (i < t + 1) = decide (i < t) :=
            decide_eq_decide.mpr (by omega)
          rw [hdec]
      · rw [if_pos rfl]
        have htlt : t / 8 < size := hsz t (by omega)
        refine ⟨by rw [List.length_set]; exact ihlen, fun i => ?_⟩
        by_cases hbyte : i / 8 = t / 8
        · rw [hbyte, getD_set_eq' _ _ _ (by rw [ihlen]; exact htlt),
            Nat.testBit_lor]
          by_cases hit : i = t
          · subst hit
            rw [Nat.shiftLeft_eq, one_mul, Nat.testBit_two_pow_self, hnt,
              Bool.or_true, Bool.and_true, decide_eq_true_iff.mpr (by omega)]
          · have hbitne : i % 8 ≠ t % 8 := by omega
            rw [Nat.shiftLeft_eq, one_mul,
              Nat.testBit_two_pow_of_ne (Ne.symm hbitne)]
            rw [Bool.or_false, ← hbyte, ihbit i]
            have hdec : decide (i < t + 1) = decide (i < t) :=
              decide_eq_decide.mpr (by omega)
            rw [hdec]
        · rw [getD_set_ne' _ _ _ _ (fun h => hbyte h.symm), ihbit i]
          have hit : i ≠ t := by
            intro h
            exact hbyte (by rw [h])
          have hdec : decide (i < t + 1) = decide (i < t) :=
            decide_eq_decide.mpr (by omega)
          rw [hdec]
  exact main nulls.length le_rfl

/-! ### Offset table -/

theorem packU16_eq (n : Nat) (h : n < 65536) :
    packU16 n = some [n % 256, n / 256] := by
  rw [packU16, if_pos h]

theorem packOffsets_spec :
    ∀ (os ob : List Nat), packOffsets os = some ob →
      ob.length = 2 * os.length ∧
      ∀ j, j < os.length →
        os.getD j 0 < 65536 ∧
        ∃ tail, ob.drop (2 * j) = [os.getD j 0 % 256, os.getD j 0 / 256] ++ tail := by
  intro os
  induction os with
  | nil =>
    intro ob h
    cases h
    exact ⟨rfl, fun j hj => absurd hj (by simp)⟩
  | cons o rest ih =>
    intro ob h
    rw [packOffsets] at h
    simp only [Option.bind_eq_bind', Option.bind_eq_some'] at h
    obtain ⟨b2, hp, ob1, hr, h⟩ := h
    have hb2 : o < 65536 ∧ b2 = [o % 256, o / 256] := by
      rw [packU16] at hp
      split at hp
      case isTrue hc => exact ⟨hc, by cases hp; rfl⟩
      case isFalse => cases hp
    obtain ⟨holt, hb2⟩ := hb2
    subst hb2
    cases h
    obtain ⟨ihlen, ihget⟩ := ih ob1 hr
    constructor
    · simp only [List.length_append, List.length_cons, List.length_nil, ihlen]
      omega
    · intro j hj
      cases j with
      | zero =>
        exact ⟨holt, ob1, by simp⟩
      | succ j =>
        have hj1 : j < rest.length := by simpa using hj
        obtain ⟨hjo, tail, htail⟩ := ihget j hj1
        refine ⟨by simpa using hjo, tail, ?_⟩
        have h2 : 2 * (j + 1) = 2 * j + 2 := by omega
        rw [h2]
        simpa using htail

/-! ### Encoder structure -/

theorem encodeCols_lengths :
    ∀ (cols : List ColumnDef) (row : Row) (cur : Nat) (ns : List Bool)
      (os : List Nat) (ps : List (List Nat)),
      encodeCols cols row cur = some (ns, os, ps) →
      ns.length = cols.length ∧ os.length = cols.length := by
  intro cols
  induction cols with
  | nil =>
    intro row cur ns os ps h
    cases h
    exact ⟨rfl, rfl⟩
  | cons col rest ih =>
    intro row cur ns os ps h
    rw [encodeCols] at h
    split at h
    · rw [Option.map_eq_some'] at h
      obtain ⟨⟨ns1, os1, ps1⟩, hr, heq⟩ := h
      obtain ⟨l1, l2⟩ := ih row cur ns1 os1 ps1 hr
      cases heq
      exact ⟨by simp [l1], by simp [l2]⟩
    · rw [Option.map_eq_some'] at h
      obtain ⟨⟨ns1, os1, ps1⟩, hr, heq⟩ := h
      obtain ⟨l1, l2⟩ := ih row cur ns1 os1 ps1 hr
      cases heq
      exact ⟨by simp [l1], by simp [l2]⟩
    · simp only [Option.bind_eq_bind', Option.bind_eq_some'] at h
      obtain ⟨bytes, hb, ⟨ns1, os1, ps1⟩, hr, heq⟩ := h
      obtain ⟨l1, l2⟩ := ih row _ ns1 os1 ps1 hr
      cases heq
      exact ⟨by simp [l1], by simp [l2]⟩

/-! ### Record round trip -/

theorem take_len_append (l1 l2 : List Nat) (L : Nat) (h : l1.length = L) :
    (l1 ++ l2).take L = l1 := by
  subst h
  exact List.take_left _ _

theorem drop_len_append (l1 l2 : List Nat) (L : Nat) (h : l1.length = L) :
    (l1 ++ l2).drop L = l2 := by
  subst h
  exact List.drop_left _ _

theorem drop_shift (record : List Nat) (cur k : Nat) (pre suf : List Nat)
    (hpre : pre.length = k) (hdrop : record.drop cur = pre ++ suf) :
    record.drop (cur + k) = suf := by
  have h1 : (record.drop cur).drop k = suf := by
    rw [hdrop]
    exact drop_len_append pre suf k hpre
  rwa [List.drop_drop] at h1

/-- The column loop of `RecordDecoder.decode` inverts the column loop of
`RecordEncoder.encode`: if the encoder produced NULL flags `ns`, offsets
`os` and data parts `ps` for the columns `cols` starting at running offset
`cur`, and the record's bitmap, offset table and data region agree with
them, then the decoder returns exactly the encoded values. -/
theorem decodeColsLoop_of_encodeCols (row : Row) (n : Nat)
    (record bitmap : List Nat) :
    ∀ (cols : List ColumnDef) (i cur : Nat) (ns : List Bool) (os : List Nat)
      (ps : List (List Nat)),
      encodeCols cols row cur = some (ns, os, ps) →
      (∀ col ∈ cols, validForCol col (rowGet row col.name)) →
      (∀ j, j < cols.length →
        (((bitmap.getD ((i + j) / 8) 0 &&& (1 <<< ((i + j) % 8))) ≠ 0) ↔
          ns.getD j false = true)) →
      (∀ j, j < cols.length →
        readU16 record (nullBitmapSize n + 2 * (i + j)) = os.getD j 0) →
      record.drop cur = ps.flatten →
      0 < cur →
      decodeColsLoop cols i record bitmap n =
        some (cols.map
          (fun col => (col.name, (rowGet row col.name).getD Value.nullV))) := by
  intro cols
  induction cols with
  | nil =>
    intro i cur ns os ps henc hkind hbits hoffs hdata hcur
    rfl
  | cons col rest ih =>
    intro i cur ns os ps henc hkind hbits hoffs hdata hcur
    obtain ⟨cname, ctype⟩ := col
    rw [encodeCols] at henc
    rw [decodeColsLoop]
    split at henc
    case h_1 hv =>
      -- missing key: the validity hypothesis rules this out
      exact absurd (hkind ⟨cname, ctype⟩ (List.mem_cons_self _ _))
        (by rw [hv]; exact id)
    case h_2 hv =>
      -- NULL column
      rw [Option.map_eq_some'] at henc
      obtain ⟨⟨ns1, os1, ps1⟩, hr, heq⟩ := henc
      have hrec := ih (i + 1) cur ns1 os1 ps1 hr
        (fun c hc => hkind c (List.mem_cons_of_mem _ hc))
        (fun j hj => by
          have := hbits (j + 1) (by simp only [List.length_cons]; omega)
          rw [show i + (j + 1) = i + 1 + j by omega] at this
          cases heq
          simpa using this)
        (fun j hj => by
          have := hoffs (j + 1) (by simp only [List.length_cons]; omega)
          rw [show i + (j + 1) = i + 1 + j by omega] at this
          cases heq
          simpa using this)
        (by cases heq; exact hdata) hcur
      have hbit0 : ((bitmap.getD (i / 8) 0 &&& (1 <<< (i % 8))) ≠ 0) := by
        have := hbits 0 (by simp)
        rw [Nat.add_zero] at this
        apply this.mpr
        cases heq
        rfl
      rw [if_pos hbit0, hrec, Option.map_some']
      rw [List.map_cons]
      simp [hv]
    case h_3 v hne hv =>
      simp only [Option.bind_eq_bind', Option.bind_eq_some'] at henc
      obtain ⟨bytes, hb, ⟨ns1, os1, ps1⟩, hr, heq⟩ := henc
      have hbit0 : ¬((bitmap.getD (i / 8) 0 &&& (1 <<< (i % 8))) ≠ 0) := by
        intro hc
        have := (by
          have := hbits 0 (by simp)
          rw [Nat.add_zero] at this
          exact this.mp hc)
        cases heq
        simp at this
      have hoff0 : readU16 record (nullBitmapSize n + 2 * i) = cur := by
        have := hoffs 0 (by simp)
        rw [Nat.add_zero] at this
        cases heq
        simpa using this
      have hkind0 := hkind ⟨cname, ctype⟩ (List.mem_cons_self _ _)
      rw [hv] at hkind0
      have hflat : record.drop cur = bytes ++ ps1.flatten := by
        cases heq
        rw [hdata]
        rfl
      have hdroplen : record.length - cur = bytes.length + ps1.flatten.length := by
        have := congrArg List.length hflat
        simpa using this
      have hrec := ih (i + 1) (cur + bytes.length) ns1 os1 ps1 hr
        (fun c hc => hkind c (List.mem_cons_of_mem _ hc))
        (fun j hj => by
          have := hbits (j + 1) (by simp only [List.length_cons]; omega)
          rw [show i + (j + 1) = i + 1 + j by omega] at this
          cases heq
          simpa using this)
        (fun j hj => by
          have := hoffs (j + 1) (by simp only [List.length_cons]; omega)
          rw [show i + (j + 1) = i + 1 + j by omega] at this
          cases heq
          simpa using this)
        (drop_shift record cur bytes.length bytes ps1.flatten rfl hflat)
        (by omega)
      rw [if_neg hbit0]
      simp only [hoff0]
      rw [if_neg (by omega)]
      cases v with
      | nullV => exact absurd rfl hne
      | boolV bv => exact absurd hkind0 (by exact id)
      | intV a =>
        obtain ⟨hti, hlo, hhi⟩ := hkind0
        subst hti
        rw [show encodeValue ⟨cname, ColType.int⟩ (Value.intV a) = packI32 a
          from rfl] at hb
        have hblen := packI32_length a bytes hb
        have hcurle : cur ≤ record.length := by
          by_contra hgt
          have hnil : record.drop cur = [] := by
            apply List.drop_eq_nil_of_le
            omega
          rw [hnil] at hflat
          have hlen2 := congrArg List.length hflat
          simp only [List.length_nil, List.length_append, hblen] at hlen2
          omega
        rw [show decodeValue ⟨cname, ColType.int⟩ record cur =
            (if cur + 4 > record.length then none
             else some (Value.intV (readI32 record cur))) from rfl]
        rw [if_neg (by omega)]
        rw [readI32_of_drop record bytes ps1.flatten cur a hb hflat]
        simp only [Option.bind_eq_bind', Option.some_bind]
        rw [hrec]
        simp [hv]
      | strV s =>
        obtain ⟨m, hts, hlen⟩ := hkind0
        subst hts
        rw [show encodeValue ⟨cname, ColType.varchar m⟩ (Value.strV s) =
            (if (utf8Encode s).length > m then none
             else (packU16 (utf8Encode s).length).map
               (fun lenB => lenB ++ utf8Encode s)) from rfl] at hb
        rw [if_neg (by omega)] at hb
        rw [Option.map_eq_some'] at hb
        obtain ⟨lenB, hpack, hbytes⟩ := hb
        have hlenB : lenB.length = 2 := packU16_length _ _ hpack
        have hsplit : record.drop cur =
            lenB ++ (utf8Encode s ++ ps1.flatten) := by
          rw [hflat, ← hbytes]
          simp [List.append_assoc]
        have hread : readU16 record cur = (utf8Encode s).length :=
          readU16_of_drop record lenB (utf8Encode s ++ ps1.flatten) cur
            (utf8Encode s).length hpack hsplit
        have hcurle : cur ≤ record.length := by
          by_contra hgt
          have hnil : record.drop cur = [] := by
            apply List.drop_eq_nil_of_le
            omega
          rw [hnil] at hsplit
          have hlen2 := congrArg List.length hsplit
          simp only [List.length_nil, List.length_append, hlenB] at hlen2
          omega
        have hlens : record.length - cur =
            2 + ((utf8Encode s).length + ps1.flatten.length) := by
          have := congrArg List.length hsplit
          simpa [hlenB] using this
        rw [show decodeValue ⟨cname, ColType.varchar m⟩ record cur =
            (if cur + 2 > record.length then none
             else
               if cur + 2 + readU16 record cur > record.length then none
               else
                 (utf8Decode ((record.drop (cur + 2)).take
                   (readU16 record cur))).map
                   (fun cs => Value.strV (String.mk cs))) from rfl]
        rw [if_neg (by omega), hread, if_neg (by omega)]
        have hdrop2 : record.drop (cur + 2) = utf8Encode s ++ ps1.flatten :=
          drop_shift record cur 2 lenB _ hlenB hsplit
        rw [hdrop2, take_len_append _ _ _ rfl, utf8Decode_utf8Encode]
        simp only [Option.map_some', Option.bind_eq_bind', Option.some_bind]
        rw [hrec]
        simp [hv]

theorem rowGet_map_cols (row : Row) (k : String) :
    ∀ cols : List ColumnDef,
      ((rowGet row k).isSome ↔ k ∈ cols.map ColumnDef.name) →
      rowGet (cols.map
          (fun col => (col.name, (rowGet row col.name).getD Value.nullV))) k =
        rowGet row k := by
  intro cols
  induction cols with
  | nil =>
    intro hk
    simp only [List.map_nil, List.not_mem_nil, iff_false,
      Option.not_isSome_iff_eq_none] at hk
    rw [hk]
    rfl
  | cons col rest ih =>
    intro hk
    rw [List.map_cons, rowGet]
    by_cases hkc : col.name = k
    · rw [if_pos hkc]
      subst hkc
      have hsome : (rowGet row col.name).isSome := hk.mpr (by simp)
      obtain ⟨v, hv⟩ := Option.isSome_iff_exists.mp hsome
      rw [hv]
      rfl
    · rw [if_neg hkc]
      apply ih
      rw [hk, List.map_cons, List.mem_cons]
      constructor
      · rintro (h | h)
        · exact absurd h.symm hkc
        · exact h
      · exact Or.inr

theorem utf8Encode_replicate_ascii (k : Nat) (c : Char) (hc : c.toNat < 128) :
    (utf8Encode (String.mk (List.replicate k c))).length = k := by
  show ((List.replicate k c).foldr
    (fun c acc => utf8EncodeChar c.toNat ++ acc) []).length = k
  induction k with
  | zero => rfl
  | succ k ih =>
    rw [List.replicate_succ, List.foldr_cons, List.length_append, ih,
      utf8EncodeChar, if_pos hc, List.length_singleton, Nat.add_comm]

theorem encodeCols_cons_some (col : ColumnDef) (rest : List ColumnDef)
    (row : Row) (cur : Nat) (v : Value) (bytes : List Nat)
    (hv : rowGet row col.name = some v) (hnn : v ≠ Value.nullV)
    (hb : encodeValue col v = some bytes) :
    encodeCols (col :: rest) row cur =
      (encodeCols rest row (cur + bytes.length)).map
        (fun x => (false :: x.1, cur :: x.2.1, bytes :: x.2.2)) := by
  cases v with
  | nullV => exact absurd rfl hnn
  | intV n =>
    simp only [encodeCols, hv]
    rw [hb]
    simp only [Option.bind_eq_bind', Option.some_bind]
    rcases h : encodeCols rest row (cur + bytes.length) with _ | x
    · rfl
    · rfl
  | strV s =>
    simp only [encodeCols, hv]
    rw [hb]
    simp only [Option.bind_eq_bind', Option.some_bind]
    rcases h : encodeCols rest row (cur + bytes.length) with _ | x
    · rfl
    · rfl
  | boolV b =>
    simp only [encodeCols, hv]
    rw [hb]
    simp only [Option.bind_eq_bind', Option.some_bind]
    rcases h : encodeCols rest row (cur + bytes.length) with _ | x
    · rfl
    · rfl

/-- C1: the record codec round-trip does NOT hold for every valid row: with
the schema `[a VARCHAR(65535), b VARCHAR(10)]` and a row giving `a` a
65535-byte string and `b` the string "hi", the row satisfies the schema,
yet `RecordEncoder.encode` raises `struct.error` (column `b`'s data offset
is 65542, which does not fit the `<H` offset-table slot), so
`decode(encode(R, S), S) == R` fails because the encoding itself errors. -/
theorem encode_offset_overflow_counterexample :
    rowValid
      [⟨"a", ColType.varchar 65535⟩, ⟨"b", ColType.varchar 10⟩]
      [("a", Value.strV (String.mk (List.replicate 65535 'x'))),
        ("b", Value.strV "hi")] ∧
    encodeRecord
      [⟨"a", ColType.varchar 65535⟩, ⟨"b", ColType.varchar 10⟩]
      [("a", Value.strV (String.mk (List.replicate 65535 'x'))),
        ("b", Value.strV "hi")] = none := by
  have hlen := utf8Encode_replicate_ascii 65535 'x' (by decide)
  constructor
  · constructor
    · intro k
      rw [rowGet]
      by_cases h1 : "a" = k
      · rw [if_pos h1]
        simp [← h1]
      · rw [if_neg h1, rowGet]
        by_cases h2 : "b" = k
        · rw [if_pos h2]
          simp [← h2]
        · rw [if_neg h2]
          simp [rowGet]
          exact ⟨fun hh => h1 hh.symm, fun hh => h2 hh.symm⟩
    · intro col hcol
      simp only [List.mem_cons, List.not_mem_nil, or_false] at hcol
      rcases hcol with hcol | hcol
      · subst hcol
        show validForCol _
          (rowGet [("a", Value.strV (String.mk (List.replicate 65535 'x'))),
            ("b", Value.strV "hi")] "a")
        rw [show rowGet [("a", Value.strV (String.mk (List.replicate 65535 'x'))),
            ("b", Value.strV "hi")] "a" =
          some (Value.strV (String.mk (List.replicate 65535 'x'))) from rfl]
        exact ⟨65535, rfl, le_of_eq hlen⟩
      · subst hcol
        show validForCol _
          (rowGet [("a", Value.strV (String.mk (List.replicate 65535 'x'))),
            ("b", Value.strV "hi")] "b")
        rw [show rowGet [("a", Value.strV (String.mk (List.replicate 65535 'x'))),
            ("b", Value.strV "hi")] "b" = some (Value.strV "hi") from rfl]
        exact ⟨10, rfl, by decide⟩
  · have hva : encodeValue ⟨"a", ColType.varchar 65535⟩
        (Value.strV (String.mk (List.replicate 65535 'x'))) =
        some ([255, 255] ++ utf8Encode (String.mk (List.replicate 65535 'x'))) := by
      show (if (utf8Encode (String.mk (List.replicate 65535 'x'))).length > 65535
        then none
        else (packU16
          (utf8Encode (String.mk (List.replicate 65535 'x'))).length).map
          (fun lenB => lenB ++ utf8Encode (String.mk (List.replicate 65535 'x'))))
        = _
      rw [hlen, if_neg (by omega), packU16_eq 65535 (by omega)]
      rfl
    have hvb : encodeValue ⟨"b", ColType.varchar 10⟩ (Value.strV "hi") =
        some [2, 0, 104, 105] := by decide
    have hblen : ([255, 255] ++
        utf8Encode (String.mk (List.replicate 65535 'x'))).length = 65537 := by
      rw [List.length_append, hlen]
      rfl
    have hstep1 := encodeCols_cons_some ⟨"a", ColType.varchar 65535⟩
      [⟨"b", ColType.varchar 10⟩]
      [("a", Value.strV (String.mk (List.replicate 65535 'x'))),
        ("b", Value.strV "hi")]
      5 _ _ rfl (by intro h; cases h) hva
    rw [hblen] at hstep1
    have hstep2 := encodeCols_cons_some ⟨"b", ColType.varchar 10⟩ []
      [("a", Value.strV (String.mk (List.replicate 65535 'x'))),
        ("b", Value.strV "hi")]
      65542 _ _ rfl (by intro h; cases h) hvb
    have hnil : ∀ cur, encodeCols ([] : List ColumnDef)
        [("a", Value.strV (String.mk (List.replicate 65535 'x'))),
          ("b", Value.strV "hi")] cur = some ([], [], []) := fun _ => rfl
    rw [hnil, Option.map_some'] at hstep2
    rw [show (5 : Nat) + 65537 = 65542 from rfl, hstep2, Option.map_some']
      at hstep1
    have hcols : encodeCols
        [⟨"a", ColType.varchar 65535⟩, ⟨"b", ColType.varchar 10⟩]
        [("a", Value.strV (String.mk (List.replicate 65535 'x'))),
          ("b", Value.strV "hi")] 5 =
        some ([false, false], [5, 65542],
          [[255, 255] ++ utf8Encode (String.mk (List.replicate 65535 'x')),
            [2, 0, 104, 105]]) := by
      rw [hstep1]
    have hpo : packOffsets [5, 65542] = none := by decide
    rw [encodeRecord]
    rw [show headerSize
        [ColumnDef.mk "a" (ColType.varchar 65535),
          ColumnDef.mk "b" (ColType.varchar 10)].length = 5 from rfl, hcols]
    simp only [Option.bind_eq_bind', Option.some_bind]
    rw [hpo]
    rfl

/-- C1: the record codec round-trip, conditional on the encoder
succeeding: for every schema and every row valid under it (key set equal
to the schema's column names; each value NULL, a signed 32-bit integer for
INT, or a string whose UTF-8 encoding fits the VARCHAR max length), if
`RecordEncoder.encode` returns bytes `b` then `RecordDecoder.decode` on
`b` returns a row with exactly the schema's keys and exactly the original
values. -/
theorem decode_encode_roundtrip (cols : List ColumnDef) (row : Row)
    (b : List Nat) (hvalid : rowValid cols row)
    (henc : encodeRecord cols row = some b) :
    ∃ d, decodeRecord cols b = some d ∧
      (∀ k, rowGet d k = rowGet row k) ∧
      d.map Prod.fst = cols.map ColumnDef.name := by
  obtain ⟨hkeys, hvals⟩ := hvalid
  refine ⟨cols.map
    (fun col => (col.name, (rowGet row col.name).getD Value.nullV)),
    ?_, fun k => rowGet_map_cols row k cols (hkeys k), by simp⟩
  rcases cols with _ | ⟨c0, rest0⟩
  · rw [show encodeRecord [] row = some [] from rfl] at henc
    cases henc
    rfl
  · rw [encodeRecord] at henc
    simp only [Option.bind_eq_bind', Option.bind_eq_some'] at henc
    obtain ⟨⟨ns, os, ps⟩, hcols, ob, hob, hbeq⟩ := henc
    cases hbeq
    obtain ⟨hns, hos⟩ := encodeCols_lengths _ row _ ns os ps hcols
    have hszb : ∀ i, i < ns.length → i / 8 < nullBitmapSize (c0 :: rest0).length := by
      intro i hi
      rw [hns] at hi
      unfold nullBitmapSize
      omega
    obtain ⟨hbmlen, hbmbit⟩ :=
      buildNullBitmap_spec (nullBitmapSize (c0 :: rest0).length) ns hszb
    obtain ⟨hoblen, hobget⟩ := packOffsets_spec os ob hob
    have hblen : (buildNullBitmap (nullBitmapSize (c0 :: rest0).length) ns ++
        ob ++ ps.flatten).length =
        nullBitmapSize (c0 :: rest0).length + 2 * (c0 :: rest0).length +
          ps.flatten.length := by
      simp only [List.length_append, hbmlen, hoblen, hos]
    have hd1 : (buildNullBitmap (nullBitmapSize (c0 :: rest0).length) ns ++
        ob ++ ps.flatten).drop (nullBitmapSize (c0 :: rest0).length) =
        ob ++ ps.flatten := by
      rw [List.append_assoc]
      exact drop_len_append _ _ _ hbmlen
    have htake : (buildNullBitmap (nullBitmapSize (c0 :: rest0).length) ns ++
        ob ++ ps.flatten).take (nullBitmapSize (c0 :: rest0).length) =
        buildNullBitmap (nullBitmapSize (c0 :: rest0).length) ns := by
      rw [List.append_assoc]
      exact take_len_append _ _ _ hbmlen
    rw [decodeRecord, if_neg (by rw [hblen]; unfold headerSize; omega)]
    rw [htake]
    apply decodeColsLoop_of_encodeCols row (c0 :: rest0).length _ _
      (c0 :: rest0) 0 (headerSize (c0 :: rest0).length) ns os ps hcols hvals
    · intro j hj
      rw [Nat.zero_add, and_shift_ne_zero_iff, hbmbit j]
      have hj2 : j < ns.length := by rw [hns]; exact hj
      simp [hj2]
    · intro j hj
      rw [Nat.zero_add]
      have hj' : j < os.length := by omega
      obtain ⟨holt, tail, htail⟩ := hobget j hj'
      apply readU16_of_drop _ [os.getD j 0 % 256, os.getD j 0 / 256]
        (tail ++ ps.flatten) _ _ (packU16_eq _ holt)
      rw [← List.drop_drop, hd1,
        List.drop_append_of_le_length (by omega), htail,
        List.append_assoc]
    · rw [headerSize, ← List.drop_drop, hd1]
      exact drop_len_append _ _ _ (by omega)
    · rw [headerSize]
      have : (c0 :: rest0).length = rest0.length + 1 := rfl
      omega

/-- Concrete instance of the round trip: one INT column, value 5. -/
theorem decode_encode_roundtrip_witness :
    ∃ d, decodeRecord [⟨"a", ColType.int⟩] [0, 3, 0, 5, 0, 0, 0] = some d ∧
      (∀ k, rowGet d k = rowGet [("a", Value.intV 5)] k) ∧
      d.map Prod.fst = [ColumnDef.mk "a" ColType.int].map ColumnDef.name :=
  decode_encode_roundtrip [⟨"a", ColType.int⟩] [("a", Value.intV 5)]
    [0, 3, 0, 5, 0, 0, 0]
    ⟨fun k => by
      rw [rowGet]
      by_cases h : "a" = k
      · rw [if_pos h]
        simp [← h]
      · rw [if_neg h]
        simp [rowGet]
        exact fun hh => h hh.symm,
     fun col hcol => by
      simp only [List.mem_cons, List.not_mem_nil, or_false] at hcol
      subst hcol
      exact ⟨rfl, by decide, by decide⟩⟩
    (by decide)

/-- C5: the encoder DOES silently coerce wrong-kind values: a parsable
string supplied for an INT column encodes successfully as the parsed
integer (`int()` coercion in `_encode_value`), and an integer supplied for
a VARCHAR column encodes successfully as its decimal string (`str()`
coercion), instead of raising an error. -/
theorem encode_silent_coercion_counterexample :
    encodeRecord [⟨"a", ColType.int⟩] [("a", Value.strV "42")] =
      some [0, 3, 0, 42, 0, 0, 0] ∧
    encodeRecord [⟨"a", ColType.int⟩] [("a", Value.strV "42")] =
      encodeRecord [⟨"a", ColType.int⟩] [("a", Value.intV 42)] ∧
    encodeRecord [⟨"a", ColType.varchar 10⟩] [("a", Value.intV 7)] =
      some [0, 3, 0, 1, 0, 55] ∧
    encodeRecord [⟨"a", ColType.varchar 10⟩] [("a", Value.intV 7)] =
      encodeRecord [⟨"a", ColType.varchar 10⟩] [("a", Value.strV "7")] := by
  refine ⟨by decide, by decide, by decide, by decide⟩

/-- C5: what `_encode_value` actually does with a wrong-kind value: for an
INT column a string parsable by `int()` encodes exactly as the parsed
integer and a boolean encodes as 0/1; for a VARCHAR column any value
encodes exactly as the string `str()` produces for it. -/
theorem encodeValue_silent_coercion (name : String) (m : Nat) (v : Value)
    (s : String) (n : Int) (b : Bool) (hs : pyIntOfString s = some n) :
    encodeValue ⟨name, ColType.int⟩ (Value.strV s) =
      encodeValue ⟨name, ColType.int⟩ (Value.intV n) ∧
    encodeValue ⟨name, ColType.int⟩ (Value.boolV b) =
      encodeValue ⟨name, ColType.int⟩ (Value.intV (if b then 1 else 0)) ∧
    encodeValue ⟨name, ColType.varchar m⟩ v =
      encodeValue ⟨name, ColType.varchar m⟩ (Value.strV (pyStr v)) := by
  refine ⟨?_, rfl, ?_⟩
  · simp only [encodeValue, hs]
  · cases v <;> rfl

/-- Concrete instance of the coercion behaviour. -/
theorem encodeValue_silent_coercion_witness :
    encodeValue ⟨"a", ColType.int⟩ (Value.strV "42") =
      encodeValue ⟨"a", ColType.int⟩ (Value.intV 42) ∧
    encodeValue ⟨"a", ColType.int⟩ (Value.boolV true) =
      encodeValue ⟨"a", ColType.int⟩ (Value.intV (if true then 1 else 0)) ∧
    encodeValue ⟨"a", ColType.varchar 10⟩ (Value.intV 7) =
      encodeValue ⟨"a", ColType.varchar 10⟩ (Value.strV (pyStr (Value.intV 7))) :=
  encodeValue_silent_coercion "a" 10 (Value.intV 7) "42" 42 true (by decide)

/-- C10: in `_compare_values`, NULL is matched by equality rather than
treated as unknown: when at least one operand is NULL, `=`/`==` yield true
exactly when both are NULL, `!=`/`<>`/`≠` yield the negation, and every
ordering comparison yields false. -/
theorem compareValues_null_semantics (l r : Value) (op : String)
    (h : l = Value.nullV ∨ r = Value.nullV) :
    ((op = "=" ∨ op = "==") →
      compareValues l r op =
        some (decide (l = Value.nullV) && decide (r = Value.nullV))) ∧
    ((op = "!=" ∨ op = "<>" ∨ op = "≠") →
      compareValues l r op =
        some (!(decide (l = Value.nullV) && decide (r = Value.nullV)))) ∧
    ((op = "<" ∨ op = "<=" ∨ op = ">" ∨ op = ">=") →
      compareValues l r op = some false) := by
  refine ⟨fun hop => ?_, fun hop => ?_, fun hop => ?_⟩
  · simp only [compareValues, if_pos h]
    rcases hop with h1 | h1 <;> subst h1 <;> simp
  · simp only [compareValues, if_pos h]
    rcases hop with h1 | h1 | h1 <;> subst h1 <;> simp
  · simp only [compareValues, if_pos h]
    rcases hop with h1 | h1 | h1 | h1 <;> subst h1 <;> simp

/-- Witness for `compareValues_null_semantics` at concrete inputs. -/
theorem compareValues_null_semantics_witness :
    compareValues Value.nullV (Value.intV 1) "<" = some false ∧
    compareValues Value.nullV Value.nullV "=" = some true ∧
    compareValues Value.nullV (Value.intV 1) "!=" = some true := by
  refine ⟨?_, ?_, ?_⟩
  · exact ((compareValues_null_semantics Value.nullV (Value.intV 1) "<"
      (Or.inl rfl)).2.2 (Or.inl rfl)).trans (by decide)
  · exact ((compareValues_null_semantics Value.nullV Value.nullV "="
      (Or.inl rfl)).1 (Or.inl rfl)).trans (by decide)
  · exact ((compareValues_null_semantics Value.nullV (Value.intV 1) "!="
      (Or.inl rfl)).2.1 (Or.inl rfl)).trans (by decide)

/-- C4 counterexample: `and(true, NULL)` evaluates to false, not to NULL —
the evaluator does not propagate NULL through the logical operators. -/
theorem and_true_null_evaluates_false :
    evaluate (Expr.andE (EvalArg.val (Value.boolV true))
        (EvalArg.val Value.nullV)) [] = some (Value.boolV false) ∧
    some (Value.boolV false) ≠ some Value.nullV := by
  exact ⟨rfl, by decide⟩

/-- C4 as amended: `and(false, NULL) = false` and `or(true, NULL) = true`
hold, but NULL does not otherwise propagate: the logical operators coerce
their operands by Python truthiness (NULL behaves as false) and always
return a boolean — `and` is the conjunction of truthiness, `or` the
disjunction, `not` the negation. -/
theorem logical_ops_return_truthiness (l r c : EvalArg) (row : Row)
    (lv rv cv : Value)
    (hl : evalArg l row = some lv) (hr : evalArg r row = some rv)
    (hc : evalArg c row = some cv) :
    evaluate (Expr.andE l r) row = some (Value.boolV (lv.truthy && rv.truthy)) ∧
    evaluate (Expr.orE l r) row = some (Value.boolV (lv.truthy || rv.truthy)) ∧
    evaluate (Expr.notE c) row = some (Value.boolV (!cv.truthy)) ∧
    evaluate (Expr.andE (EvalArg.val (Value.boolV false))
        (EvalArg.val Value.nullV)) row = some (Value.boolV false) ∧
    evaluate (Expr.orE (EvalArg.val (Value.boolV true))
        (EvalArg.val Value.nullV)) row = some (Value.boolV true) := by
  refine ⟨?_, ?_, ?_, ?_, ?_⟩
  · cases htl : lv.truthy <;> simp [evaluate, hl, hr, htl]
  · cases htl : lv.truthy <;> simp [evaluate, hl, hr, htl]
  · simp [evaluate, hc]
  · simp [evaluate, evalArg, Value.truthy]
  · simp [evaluate, evalArg, Value.truthy]

/-- Witness for `logical_ops_return_truthiness` at concrete inputs. -/
theorem logical_ops_return_truthiness_witness :
    evaluate (Expr.andE (EvalArg.val (Value.intV 3))
        (EvalArg.val Value.nullV)) [] = some (Value.boolV false) :=
  (logical_ops_return_truthiness (EvalArg.val (Value.intV 3))
    (EvalArg.val Value.nullV) (EvalArg.val Value.nullV) []
    (Value.intV 3) Value.nullV Value.nullV rfl rfl rfl).1.trans (by decide)

/-- C9 counterexample: with a string value and integer bounds,
`'10' BETWEEN 5 AND 20` evaluates to false (the raw Python comparison
raises TypeError, caught as False) while the conjunction
`'10' >= 5 AND '10' <= 20` evaluates to true (`_compare_values` coerces
the string through `int()`). -/
theorem between_conjunction_mixed_kind_counterexample :
    evaluate (Expr.between (Operand.lit (Value.strV "10"))
        (Operand.lit (Value.intV 5)) (Operand.lit (Value.intV 20))) [] =
      some (Value.boolV false) ∧
    evaluate (Expr.andE
        (EvalArg.sub (Expr.cmp (Operand.lit (Value.strV "10")) ">="
          (Operand.lit (Value.intV 5))))
        (EvalArg.sub (Expr.cmp (Operand.lit (Value.strV "10")) "<="
          (Operand.lit (Value.intV 20))))) [] = some (Value.boolV true) := by
  constructor <;> rfl

set_option maxHeartbeats 2000000 in
/-- C9 as amended: `v BETWEEN lo AND hi` is equivalent to
`v >= lo AND v <= hi` whenever the three operands do not mix strings with
integers (each NULL, or all non-NULL ones integers, or all strings); for
mixed string/integer operands the two forms differ: `_eval_between`
compares raw values (a TypeError becomes false) while `_compare_values`
normalizes across kinds. -/
theorem between_eq_conjunction_uniform_kind (v lo hi : Value) (row : Row)
    (h : (intOrNull v ∧ intOrNull lo ∧ intOrNull hi) ∨
         (strOrNull v ∧ strOrNull lo ∧ strOrNull hi)) :
    evaluate (Expr.between (Operand.lit v) (Operand.lit lo)
        (Operand.lit hi)) row =
    evaluate (Expr.andE
        (EvalArg.sub (Expr.cmp (Operand.lit v) ">=" (Operand.lit lo)))
        (EvalArg.sub (Expr.cmp (Operand.lit v) "<=" (Operand.lit hi)))) row := by
  rcases h with ⟨hv, hlo, hhi⟩ | ⟨hv, hlo, hhi⟩ <;>
    rcases hv with rfl | ⟨a, rfl⟩ <;> rcases hlo with rfl | ⟨b, rfl⟩ <;>
    rcases hhi with rfl | ⟨c, rfl⟩ <;>
    first
      | (by_cases hba : b ≤ a <;> by_cases hac : a ≤ c <;>
          simp only [evaluate, getValue, evalArg, Option.bind_some, compareValues,
            normalizeTypes, pyCompareOp, pyLe, Value.sameType, Value.isNum,
            Value.toNum, Value.truthy] <;>
          simp [hba, hac] <;> done)
      | (by_cases hba : b ≤ a <;>
          simp only [evaluate, getValue, evalArg, Option.bind_some, compareValues,
            normalizeTypes, pyCompareOp, pyLe, Value.sameType, Value.isNum,
            Value.toNum, Value.truthy] <;>
          simp [hba] <;> done)
      | (by_cases hba : b.data ≤ a.data <;> by_cases hac : a.data ≤ c.data <;>
          simp only [evaluate, getValue, evalArg, Option.bind_some, compareValues,
            normalizeTypes, pyCompareOp, pyLe, Value.sameType, Value.isNum,
            Value.toNum, Value.truthy] <;>
          simp [hba, hac, not_le, not_lt, le_of_lt] <;> done)
      | (by_cases hba : b.data ≤ a.data <;>
          simp only [evaluate, getValue, evalArg, Option.bind_some, compareValues,
            normalizeTypes, pyCompareOp, pyLe, Value.sameType, Value.isNum,
            Value.toNum, Value.truthy] <;>
          simp [hba, not_le, not_lt, le_of_lt] <;> done)
      | rfl

/-- Witness for `between_eq_conjunction_uniform_kind` at concrete inputs. -/
theorem between_eq_conjunction_uniform_kind_witness :
    evaluate (Expr.between (Operand.lit (Value.intV 7))
        (Operand.lit (Value.intV 5)) (Operand.lit (Value.intV 20))) [] =
    evaluate (Expr.andE
        (EvalArg.sub (Expr.cmp (Operand.lit (Value.intV 7)) ">="
          (Operand.lit (Value.intV 5))))
        (EvalArg.sub (Expr.cmp (Operand.lit (Value.intV 7)) "<="
          (Operand.lit (Value.intV 20))))) [] :=
  between_eq_conjunction_uniform_kind (Value.intV 7) (Value.intV 5)
    (Value.intV 20) []
    (Or.inl ⟨Or.inr ⟨7, rfl⟩, Or.inr ⟨5, rfl⟩, Or.inr ⟨20, rfl⟩⟩)

/-! ### Slotted page: byte-level lemmas -/

theorem writeBytes_length (d bs : List Nat) (off : Nat)
    (h : off + bs.length ≤ d.length) :
    (writeBytes d off bs).length = d.length := by
  simp only [writeBytes, List.length_append, List.length_take,
    List.length_drop]
  omega

theorem getD_writeBytes_in (d bs : List Nat) (off j : Nat)
    (hoff : off ≤ d.length) (hj : j < bs.length) :
    (writeBytes d off bs).getD (off + j) 0 = bs.getD j 0 := by
  have htl : (d.take off).length = off := by
    rw [List.length_take]
    omega
  have h := getD_append_mid (d.take off) bs (d.drop (off + bs.length)) j hj
  rw [htl] at h
  rw [writeBytes]
  exact h

theorem getD_writeBytes_lt (d bs : List Nat) (off j : Nat) (hj : j < off)
    (hoff : off ≤ d.length) :
    (writeBytes d off bs).getD j 0 = d.getD j 0 := by
  rw [writeBytes, List.getD_append _ _ _ _ (by
      simp only [List.length_append, List.length_take]
      omega),
    List.getD_append _ _ _ _ (by
      simp only [List.length_take]
      omega)]
  rw [List.getD_eq_getD_get?, List.get?_take hj, ← List.getD_eq_getD_get?]

theorem getD_writeBytes_ge (d bs : List Nat) (off j : Nat)
    (hoff : off ≤ d.length) (hj : off + bs.length ≤ j) :
    (writeBytes d off bs).getD j 0 = d.getD j 0 := by
  have htl : (d.take off ++ bs).length = off + bs.length := by
    simp only [List.length_append, List.length_take]
    omega
  rw [writeBytes, List.getD_append_right _ _ _ _ (by rw [htl]; omega), htl,
    getD_drop]
  congr 1
  omega

theorem list_eq_of_getD (l1 l2 : List Nat) (hlen : l1.length = l2.length)
    (h : ∀ j, j < l1.length → l1.getD j 0 = l2.getD j 0) : l1 = l2 := by
  apply List.ext_get hlen
  intro n h1 h2
  have hg := h n h1
  rwa [List.getD_eq_getD_get?, List.get?_eq_get h1, Option.getD_some,
    List.getD_eq_getD_get?, List.get?_eq_get h2, Option.getD_some] at hg

theorem pageHeaderBytes_length (pid ds sc fl : Nat) :
    (pageHeaderBytes pid ds sc fl).length = 14 := by
  simp [pageHeaderBytes, u16le, u32le]

theorem header_readback (d : List Nat) (pid ds sc fl : Nat)
    (hd : 14 ≤ d.length) (hds : ds < 65536) (hsc : sc < 65536)
    (hfl : fl < 4294967296) :
    readU16 (writeBytes d 0 (pageHeaderBytes pid ds sc fl)) 6 = ds ∧
    readU16 (writeBytes d 0 (pageHeaderBytes pid ds sc fl)) 8 = sc ∧
    readU32 (writeBytes d 0 (pageHeaderBytes pid ds sc fl)) 10 = fl := by
  have hg : ∀ j, j < 14 →
      (writeBytes d 0 (pageHeaderBytes pid ds sc fl)).getD j 0 =
        (pageHeaderBytes pid ds sc fl).getD j 0 := by
    intro j hj
    have h := getD_writeBytes_in d (pageHeaderBytes pid ds sc fl) 0 j
      (by omega) (by rw [pageHeaderBytes_length]; omega)
    rwa [Nat.zero_add] at h
  refine ⟨?_, ?_, ?_⟩
  · rw [readU16, hg 6 (by omega), hg 7 (by omega)]
    simp only [pageHeaderBytes, u16le, u32le, List.cons_append,
      List.nil_append, List.getD_cons_succ, List.getD_cons_zero]
    omega
  · rw [readU16, hg 8 (by omega), hg 9 (by omega)]
    simp only [pageHeaderBytes, u16le, u32le, List.cons_append,
      List.nil_append, List.getD_cons_succ, List.getD_cons_zero]
    omega
  · rw [readU32, hg 10 (by omega), hg 11 (by omega), hg 12 (by omega),
      hg 13 (by omega)]
    simp only [pageHeaderBytes, u16le, u32le, List.cons_append,
      List.nil_append, List.getD_cons_succ, List.getD_cons_zero]
    omega

theorem getD_take_lt (l : List Nat) (n j : Nat) (hj : j < n) :
    (l.take n).getD j 0 = l.getD j 0 := by
  rw [List.getD_eq_getD_get?, List.get?_take hj, ← List.getD_eq_getD_get?]

theorem readU16_congr_getD (bs1 bs2 : List Nat) (i : Nat)
    (h0 : bs1.getD i 0 = bs2.getD i 0)
    (h1 : bs1.getD (i + 1) 0 = bs2.getD (i + 1) 0) :
    readU16 bs1 i = readU16 bs2 i := by
  rw [readU16, readU16, h0, h1]

/-! ### Slotted page: setter/getter lemmas -/

theorem setHeader_fields (p : Page) (ds sc fl : Nat)
    (h14 : 14 ≤ p.data.length) (hds : ds < 65536) (hsc : sc < 65536)
    (hfl : fl < 4294967296) :
    (p.setHeader ds sc fl).dataStart = ds ∧
    (p.setHeader ds sc fl).slotCount = sc ∧
    (p.setHeader ds sc fl).flags = fl ∧
    (p.setHeader ds sc fl).data.length = p.data.length := by
  obtain ⟨h6, h8, h10⟩ := header_readback p.data p.pageId ds sc fl h14 hds hsc hfl
  exact ⟨h6, h8, h10,
    writeBytes_length _ _ _ (by rw [pageHeaderBytes_length]; omega)⟩

theorem setHeader_getD_ge (p : Page) (ds sc fl j : Nat)
    (h14 : 14 ≤ p.data.length) (hj : 14 ≤ j) :
    (p.setHeader ds sc fl).data.getD j 0 = p.data.getD j 0 :=
  getD_writeBytes_ge _ _ 0 j (by omega)
    (by rw [Nat.zero_add, pageHeaderBytes_length]; omega)

theorem setSlotInfo_length (p : Page) (sid off len : Nat) (del : Bool)
    (h : 14 + sid * 5 + 5 ≤ p.data.length) :
    (p.setSlotInfo sid off len del).data.length = p.data.length :=
  writeBytes_length _ _ _ (by
    simp only [List.length_append, u16le, List.length_cons, List.length_nil]
    omega)

theorem setSlotInfo_getD_lt (p : Page) (sid off len : Nat) (del : Bool)
    (j : Nat) (hj : j < 14 + sid * 5) (hb : 14 + sid * 5 ≤ p.data.length) :
    (p.setSlotInfo sid off len del).data.getD j 0 = p.data.getD j 0 :=
  getD_writeBytes_lt _ _ _ _ hj hb

theorem setSlotInfo_getD_ge (p : Page) (sid off len : Nat) (del : Bool)
    (j : Nat) (hj : 14 + sid * 5 + 5 ≤ j)
    (hb : 14 + sid * 5 ≤ p.data.length) :
    (p.setSlotInfo sid off len del).data.getD j 0 = p.data.getD j 0 :=
  getD_writeBytes_ge _ _ _ _ hb (by
    simp only [List.length_append, u16le, List.length_cons, List.length_nil]
    omega)

theorem setSlotInfo_readback (p : Page) (sid off len : Nat) (del : Bool)
    (hb : 14 + sid * 5 + 5 ≤ p.data.length) (hoff : off < 65536)
    (hlen : len < 65536) :
    readU16 (p.setSlotInfo sid off len del).data (14 + sid * 5) = off ∧
    readU16 (p.setSlotInfo sid off len del).data (14 + sid * 5 + 2) = len ∧
    (p.setSlotInfo sid off len del).data.getD (14 + sid * 5 + 4) 0 =
      (if del then 1 else 0) := by
  have hg : ∀ j, j < 5 →
      (p.setSlotInfo sid off len del).data.getD (14 + sid * 5 + j) 0 =
        (u16le off ++ u16le len ++ [if del then 1 else 0]).getD j 0 :=
    fun j hj => getD_writeBytes_in _ _ _ j (by omega) (by
      simp only [List.length_append, u16le, List.length_cons, List.length_nil]
      omega)
  have h0 := hg 0 (by omega)
  rw [Nat.add_zero] at h0
  have h1 := hg 1 (by omega)
  have h2 := hg 2 (by omega)
  have h3 := hg 3 (by omega)
  have h4 := hg 4 (by omega)
  refine ⟨?_, ?_, ?_⟩
  · rw [readU16, h0, h1]
    simp only [u16le, List.cons_append, List.nil_append, List.getD_cons_zero,
      List.getD_cons_succ]
    omega
  · rw [readU16, show 14 + sid * 5 + 2 + 1 = 14 + sid * 5 + 3 from by omega,
      h2, h3]
    simp only [u16le, List.cons_append, List.nil_append, List.getD_cons_zero,
      List.getD_cons_succ]
    omega
  · rw [h4]
    simp only [u16le, List.cons_append, List.nil_append, List.getD_cons_succ,
      List.getD_cons_zero]

/-- The full effect of a successful `SlottedPage.insert`: shared by the
insert specification and the well-formedness preservation proof. -/
theorem insert_success_state (p : Page) (record : List Nat) (hwf : pageWF p)
    (hne : record.length ≠ 0)
    (hfit : ¬ p.freeSpace < (record.length : Int) + 5) :
    (p.insert record).1 = InsertResult.ok p.slotCount ∧
    (p.insert record).2.dataStart = p.dataStart - record.length ∧
    (p.insert record).2.slotCount = p.slotCount + 1 ∧
    (p.insert record).2.flags = p.flags ∧
    (p.insert record).2.data.length = 4096 ∧
    (p.insert record).2.getSlotInfo p.slotCount =
      some (p.dataStart - record.length, record.length, false) ∧
    (p.insert record).2.read p.slotCount = some record ∧
    (p.insert record).2.pageId = p.pageId := by
  obtain ⟨hlen4096, hslots, hds4096, hfl⟩ := hwf
  have hfitN : 14 + 5 * p.slotCount + record.length + 5 ≤ p.dataStart := by
    rw [Page.freeSpace] at hfit
    omega
  have hins : p.insert record =
      (InsertResult.ok p.slotCount, Page.setHeader (Page.setSlotInfo
        ⟨p.pageId, writeBytes p.data (p.dataStart - record.length) record⟩
        p.slotCount (p.dataStart - record.length) record.length false)
        (p.dataStart - record.length) (p.slotCount + 1) p.flags) := by
    simp only [Page.insert, if_neg hne, if_neg hfit]
  rw [hins]
  have hp1len :
      (writeBytes p.data (p.dataStart - record.length) record).length =
        4096 := by
    rw [writeBytes_length _ _ _ (by omega), hlen4096]
  have hq2len : (Page.setSlotInfo
      ⟨p.pageId, writeBytes p.data (p.dataStart - record.length) record⟩
      p.slotCount (p.dataStart - record.length) record.length
      false).data.length = 4096 := by
    rw [setSlotInfo_length _ _ _ _ _ (by
      show 14 + p.slotCount * 5 + 5 ≤
        (writeBytes p.data (p.dataStart - record.length) record).length
      omega)]
    exact hp1len
  have hq2pid : (Page.setSlotInfo
      ⟨p.pageId, writeBytes p.data (p.dataStart - record.length) record⟩
      p.slotCount (p.dataStart - record.length) record.length
      false).pageId = p.pageId := rfl
  obtain ⟨hds, hsc, hflq, hlenq⟩ := setHeader_fields
    (Page.setSlotInfo
      ⟨p.pageId, writeBytes p.data (p.dataStart - record.length) record⟩
      p.slotCount (p.dataStart - record.length) record.length false)
    (p.dataStart - record.length) (p.slotCount + 1) p.flags
    (by rw [hq2len]; omega) (by omega) (by omega) hfl
  obtain ⟨hsb0, hsb2, hsb4⟩ := setSlotInfo_readback
    ⟨p.pageId, writeBytes p.data (p.dataStart - record.length) record⟩
    p.slotCount (p.dataStart - record.length) record.length false
    (by
      show 14 + p.slotCount * 5 + 5 ≤
        (writeBytes p.data (p.dataStart - record.length) record).length
      omega)
    (by omega) (by omega)
  have hhd_ge : ∀ j, 14 ≤ j → (Page.setHeader (Page.setSlotInfo
      ⟨p.pageId, writeBytes p.data (p.dataStart - record.length) record⟩
      p.slotCount (p.dataStart - record.length) record.length false)
      (p.dataStart - record.length) (p.slotCount + 1) p.flags).data.getD j 0 =
      (Page.setSlotInfo
        ⟨p.pageId, writeBytes p.data (p.dataStart - record.length) record⟩
        p.slotCount (p.dataStart - record.length) record.length false).data.getD
        j 0 :=
    fun j hj => setHeader_getD_ge _ _ _ _ j (by omega) hj
  have hslot0 : readU16 (Page.setHeader (Page.setSlotInfo
      ⟨p.pageId, writeBytes p.data (p.dataStart - record.length) record⟩
      p.slotCount (p.dataStart - record.length) record.length false)
      (p.dataStart - record.length) (p.slotCount + 1) p.flags).data
      (14 + p.slotCount * 5) = p.dataStart - record.length := by
    rw [readU16_congr_getD _ _ _ (hhd_ge _ (by omega)) (hhd_ge _ (by omega))]
    exact hsb0
  have hslot2 : readU16 (Page.setHeader (Page.setSlotInfo
      ⟨p.pageId, writeBytes p.data (p.dataStart - record.length) record⟩
      p.slotCount (p.dataStart - record.length) record.length false)
      (p.dataStart - record.length) (p.slotCount + 1) p.flags).data
      (14 + p.slotCount * 5 + 2) = record.length := by
    rw [readU16_congr_getD _ _ _ (hhd_ge _ (by omega)) (hhd_ge _ (by omega))]
    exact hsb2
  have hslot4 : (Page.setHeader (Page.setSlotInfo
      ⟨p.pageId, writeBytes p.data (p.dataStart - record.length) record⟩
      p.slotCount (p.dataStart - record.length) record.length false)
      (p.dataStart - record.length) (p.slotCount + 1) p.flags).data.getD
      (14 + p.slotCount * 5 + 4) 0 = 0 := by
    rw [hhd_ge _ (by omega), hsb4]
    rfl
  have hslotinfo : (Page.setHeader (Page.setSlotInfo
      ⟨p.pageId, writeBytes p.data (p.dataStart - record.length) record⟩
      p.slotCount (p.dataStart - record.length) record.length false)
      (p.dataStart - record.length) (p.slotCount + 1) p.flags).getSlotInfo
      p.slotCount =
      some (p.dataStart - record.length, record.length, false) := by
    rw [Page.getSlotInfo, hsc, if_neg (by omega), hslot0, hslot2, hslot4]
    simp
  have hdata_at : ∀ j, j < record.length → (Page.setHeader (Page.setSlotInfo
      ⟨p.pageId, writeBytes p.data (p.dataStart - record.length) record⟩
      p.slotCount (p.dataStart - record.length) record.length false)
      (p.dataStart - record.length) (p.slotCount + 1) p.flags).data.getD
      (p.dataStart - record.length + j) 0 = record.getD j 0 := by
    intro j hj
    rw [hhd_ge _ (by omega),
      setSlotInfo_getD_ge _ _ _ _ _ _ (by omega) (by
        show 14 + p.slotCount * 5 ≤
          (writeBytes p.data (p.dataStart - record.length) record).length
        omega)]
    exact getD_writeBytes_in p.data record _ j (by omega) hj
  have hread : (Page.setHeader (Page.setSlotInfo
      ⟨p.pageId, writeBytes p.data (p.dataStart - record.length) record⟩
      p.slotCount (p.dataStart - record.length) record.length false)
      (p.dataStart - record.length) (p.slotCount + 1) p.flags).read
      p.slotCount = some record := by
    rw [Page.read, hslotinfo]
    show some (((Page.setHeader (Page.setSlotInfo
      ⟨p.pageId, writeBytes p.data (p.dataStart - record.length) record⟩
      p.slotCount (p.dataStart - record.length) record.length false)
      (p.dataStart - record.length) (p.slotCount + 1) p.flags).data.drop
      (p.dataStart - record.length)).take record.length) = some record
    congr 1
    apply list_eq_of_getD
    · simp only [List.length_take, List.length_drop, hlenq, hq2len]
      omega
    · intro j hj
      have hjlen : j < record.length := by
        simp only [List.length_take, List.length_drop, hlenq, hq2len] at hj
        omega
      rw [getD_take_lt _ _ _ hjlen, getD_drop]
      exact hdata_at j hjlen
  exact ⟨rfl, hds, hsc, hflq, by rw [hlenq]; exact hq2len, hslotinfo, hread,
    by rw [show (Page.setHeader _ (p.dataStart - record.length)
      (p.slotCount + 1) p.flags).pageId = _ from rfl]; exact hq2pid⟩

theorem readU32_congr_getD (bs1 bs2 : List Nat) (i : Nat)
    (h0 : bs1.getD i 0 = bs2.getD i 0)
    (h1 : bs1.getD (i + 1) 0 = bs2.getD (i + 1) 0)
    (h2 : bs1.getD (i + 2) 0 = bs2.getD (i + 2) 0)
    (h3 : bs1.getD (i + 3) 0 = bs2.getD (i + 3) 0) :
    readU32 bs1 i = readU32 bs2 i := by
  rw [readU32, readU32, h0, h1, h2, h3]

theorem pageWF_insert (p : Page) (record : List Nat) (hwf : pageWF p) :
    pageWF (p.insert record).2 := by
  by_cases h0 : record.length = 0
  · rw [Page.insert, if_pos h0]
    exact hwf
  by_cases hfit : p.freeSpace < (record.length : Int) + 5
  · have hfull : p.insert record = (.pageFull, p) := by
      simp only [Page.insert, if_neg h0, if_pos hfit]
    rw [hfull]
    exact hwf
  · obtain ⟨_, hds, hsc, hflq, hlen, _, _, _⟩ :=
      insert_success_state p record hwf h0 hfit
    obtain ⟨h1, h2, h3, h4⟩ := hwf
    have hfitN : 14 + 5 * p.slotCount + record.length + 5 ≤ p.dataStart := by
      rw [Page.freeSpace] at hfit
      omega
    refine ⟨hlen, ?_, ?_, ?_⟩
    · rw [hds, hsc]
      omega
    · rw [hds]
      omega
    · rw [hflq]
      exact h4

theorem pageWF_delete (p q : Page) (s : Nat) (hwf : pageWF p)
    (h : p.delete s = some q) : pageWF q := by
  obtain ⟨hlen, hslots, hds, hfl⟩ := hwf
  rw [Page.delete] at h
  rcases hsi : p.getSlotInfo s with _ | ⟨off, len, del⟩
  · rw [hsi] at h
    cases h
  · rw [hsi] at h
    have hslt : s < p.slotCount := by
      by_contra hge
      rw [Page.getSlotInfo, if_pos (by omega)] at hsi
      cases hsi
    cases del with
    | true =>
      have hq : p = q := Option.some.inj h
      subst hq
      exact ⟨hlen, hslots, hds, hfl⟩
    | false =>
      have hq : p.setSlotInfo s off len true = q := Option.some.inj h
      subst hq
      have hb : 14 + s * 5 ≤ p.data.length := by omega
      have hlow : ∀ j, j < 14 →
          (p.setSlotInfo s off len true).data.getD j 0 = p.data.getD j 0 :=
        fun j hj => setSlotInfo_getD_lt p s off len true j (by omega) hb
      have e6 : (p.setSlotInfo s off len true).dataStart = p.dataStart :=
        readU16_congr_getD _ _ 6 (hlow 6 (by omega)) (hlow 7 (by omega))
      have e8 : (p.setSlotInfo s off len true).slotCount = p.slotCount :=
        readU16_congr_getD _ _ 8 (hlow 8 (by omega)) (hlow 9 (by omega))
      have e10 : (p.setSlotInfo s off len true).flags = p.flags :=
        readU32_congr_getD _ _ 10 (hlow 10 (by omega)) (hlow 11 (by omega))
          (hlow 12 (by omega)) (hlow 13 (by omega))
      refine ⟨?_, ?_, ?_, ?_⟩
      · rw [setSlotInfo_length _ _ _ _ _ (by omega)]
        exact hlen
      · rw [e6, e8]
        exact hslots
      · rw [e6]
        exact hds
      · rw [e10]
        exact hfl

theorem pageWF_init (pid : Nat) : pageWF (Page.init pid) := by
  obtain ⟨h6, h8, h10⟩ := header_readback (List.replicate 4096 0) pid 4096 0 0
    (by rw [List.length_replicate]; omega) (by omega) (by omega) (by omega)
  have e6 : Page.dataStart (Page.init pid) = 4096 := h6
  have e8 : Page.slotCount (Page.init pid) = 0 := h8
  have e10 : Page.flags (Page.init pid) = 0 := h10
  refine ⟨?_, by omega, by omega, by omega⟩
  show (writeBytes (List.replicate 4096 0) 0
    (pageHeaderBytes pid 4096 0 0)).length = 4096
  rw [writeBytes_length _ _ _ (by
    rw [Nat.zero_add, pageHeaderBytes_length, List.length_replicate]; omega)]
  exact List.length_replicate 4096 0

theorem pageWF_fromBytes (p q : Page) (pid : Nat) (hwf : pageWF p)
    (h : Page.fromBytes pid p.data = some q) : pageWF q := by
  rw [Page.fromBytes] at h
  split at h
  · cases h
  split at h
  · cases h
  split at h
  · cases h
  have hq : (⟨pid, p.data⟩ : Page) = q := Option.some.inj h
  subst hq
  exact hwf

theorem pageWF_of_reachable (p : Page) (h : PageReachable p) : pageWF p := by
  induction h with
  | init pid => exact pageWF_init pid
  | insert p record _ ih => exact pageWF_insert p record ih
  | delete p q s _ hd ih => exact pageWF_delete p q s ih hd
  | roundtrip p q _ hq ih => exact pageWF_fromBytes p q p.pageId ih hq

/-- C6 counterexample: `insert` does not fail with OutOfSpace exactly when
`free_space < len(record) + 5`: an empty record raises ValueError before
the space check even on a fresh page with 4082 free bytes, where the
claimed condition (4082 < 0 + 5) is false and the claim would demand a
successful insert. -/
theorem insert_empty_record_counterexample :
    ¬ (Page.init 1).freeSpace < ((([] : List Nat)).length : Int) + 5 ∧
    (Page.init 1).insert [] = (InsertResult.emptyRecord, Page.init 1) := by
  have h6 : (Page.init 1).dataStart = 4096 :=
    (header_readback (List.replicate 4096 0) 1 4096 0 0
      (by rw [List.length_replicate]; omega) (by omega) (by omega)
      (by omega)).1
  have h8 : (Page.init 1).slotCount = 0 :=
    (header_readback (List.replicate 4096 0) 1 4096 0 0
      (by rw [List.length_replicate]; omega) (by omega) (by omega)
      (by omega)).2.1
  constructor
  · rw [Page.freeSpace, h6, h8]
    decide
  · rw [Page.insert,
      if_pos (show ([] : List Nat).length = 0 from rfl)]

/-- C6: `insert` behaves exactly as claimed for NONEMPTY records on a
well-formed page: it returns -1 precisely when
`free_space < len(record) + 5`, and otherwise writes the record at
`data_start - len(record)`, appends slot `slot_count` pointing at those
bytes, and sets the new data_start and slot_count.  (Empty records raise
ValueError instead — see the counterexample.) -/
theorem insert_spec (p : Page) (record : List Nat) (hwf : pageWF p)
    (hne : record ≠ []) :
    (p.freeSpace < (record.length : Int) + 5 →
      p.insert record = (InsertResult.pageFull, p)) ∧
    (¬ p.freeSpace < (record.length : Int) + 5 →
      (p.insert record).1 = InsertResult.ok p.slotCount ∧
      (p.insert record).2.dataStart = p.dataStart - record.length ∧
      (p.insert record).2.slotCount = p.slotCount + 1 ∧
      (p.insert record).2.flags = p.flags ∧
      (p.insert record).2.getSlotInfo p.slotCount =
        some (p.dataStart - record.length, record.length, false) ∧
      (p.insert record).2.read p.slotCount = some record) := by
  have h0 : record.length ≠ 0 := by
    intro h
    exact hne (List.length_eq_zero.mp h)
  constructor
  · intro hfull
    simp only [Page.insert, if_neg h0, if_pos hfull]
  · intro hfit
    obtain ⟨a, b, c, d, _, e, f, _⟩ := insert_success_state p record hwf h0 hfit
    exact ⟨a, b, c, d, e, f⟩

/-- Concrete instance of the insert specification: one byte into a fresh
page. -/
theorem insert_spec_witness :
    ¬ (Page.init 9).freeSpace < ((([7] : List Nat)).length : Int) + 5 ∧
    (((Page.init 9).insert [7]).1 =
        InsertResult.ok (Page.init 9).slotCount ∧
      ((Page.init 9).insert [7]).2.dataStart =
        (Page.init 9).dataStart - ([7] : List Nat).length ∧
      ((Page.init 9).insert [7]).2.slotCount = (Page.init 9).slotCount + 1 ∧
      ((Page.init 9).insert [7]).2.flags = (Page.init 9).flags ∧
      ((Page.init 9).insert [7]).2.getSlotInfo (Page.init 9).slotCount =
        some ((Page.init 9).dataStart - ([7] : List Nat).length,
          ([7] : List Nat).length, false) ∧
      ((Page.init 9).insert [7]).2.read (Page.init 9).slotCount =
        some [7]) :=
  have h6 : (Page.init 9).dataStart = 4096 :=
    (header_readback (List.replicate 4096 0) 9 4096 0 0
      (by rw [List.length_replicate]; omega) (by omega) (by omega)
      (by omega)).1
  have h8 : (Page.init 9).slotCount = 0 :=
    (header_readback (List.replicate 4096 0) 9 4096 0 0
      (by rw [List.length_replicate]; omega) (by omega) (by omega)
      (by omega)).2.1
  have hfit : ¬ (Page.init 9).freeSpace < ((([7] : List Nat)).length : Int) + 5 := by
    rw [Page.freeSpace, h6, h8]
    decide
  ⟨hfit, (insert_spec (Page.init 9) [7] (pageWF_init 9) (by decide)).2 hfit⟩

/-- C7: every page reachable from a fresh page by any sequence of `insert`,
`delete` and `to_bytes`/`from_bytes` operations satisfies the header
invariant `data_start ≥ HEADER_SIZE + SLOT_SIZE * slot_count`. -/
theorem reachable_page_header_invariant (p : Page) (h : PageReachable p) :
    14 + 5 * p.slotCount ≤ p.dataStart :=
  (pageWF_of_reachable p h).2.1

/-- Concrete instance of the header invariant on a fresh page. -/
theorem reachable_page_header_invariant_witness :
    14 + 5 * (Page.init 0).slotCount ≤ (Page.init 0).dataStart :=
  reachable_page_header_invariant (Page.init 0) (PageReachable.init 0)

/-! ### update_where -/

theorem updateWhereSlots_count_le (cols : List ColumnDef) (pred : Row → Bool)
    (f : Row → Option Row) :
    ∀ (slots : List Nat) (p : Page) (cnt : Nat) (md : Bool),
      (updateWhereSlots cols pred f slots p cnt md).2.1 ≤
        cnt + slots.length := by
  intro slots
  induction slots with
  | nil =>
    intro p cnt md
    rw [updateWhereSlots]
    simp
  | cons s rest ih =>
    intro p cnt md
    have key : ∀ (q : Page) (c : Nat) (m : Bool), c ≤ cnt + 1 →
        (updateWhereSlots cols pred f rest q c m).2.1 ≤
          cnt + (s :: rest).length := by
      intro q c m hc
      calc (updateWhereSlots cols pred f rest q c m).2.1
          ≤ c + rest.length := ih q c m
        _ ≤ cnt + (s :: rest).length := by
            rw [List.length_cons]
            omega
    rw [updateWhereSlots]
    repeat' split
    all_goals exact key _ _ _ (by omega)

/-- C2: what `update_where` actually does with pages: it processes each
page independently and writes it back in place — the page list never grows
and no row ever moves to another or a newly allocated page — and the
returned count (the number of successful same-page reinserts) is the sum
of the per-page counts, at most one per pre-existing slot. -/
theorem updateWhere_no_migration (cols : List ColumnDef) (pred : Row → Bool)
    (f : Row → Option Row) (pages : List Page) :
    (updateWhereTable cols pred f pages).1 =
      pages.map (fun p => (updateWherePage cols pred f p).1) ∧
    (updateWhereTable cols pred f pages).2 =
      (pages.map (fun p => (updateWherePage cols pred f p).2.1)).sum ∧
    ∀ p ∈ pages, (updateWherePage cols pred f p).2.1 ≤ p.getSlotCount := by
  have hmain : ∀ ps : List Page,
      (updateWhereTable cols pred f ps).1 =
        ps.map (fun p => (updateWherePage cols pred f p).1) ∧
      (updateWhereTable cols pred f ps).2 =
        (ps.map (fun p => (updateWherePage cols pred f p).2.1)).sum := by
    intro ps
    induction ps with
    | nil => exact ⟨rfl, rfl⟩
    | cons p rest ih =>
      obtain ⟨ih1, ih2⟩ := ih
      constructor
      · simp only [updateWhereTable, List.map_cons]
        rw [ih1]
      · simp only [updateWhereTable, List.map_cons, List.sum_cons]
        rw [ih2]
  refine ⟨(hmain pages).1, (hmain pages).2, fun p _ => ?_⟩
  have h := updateWhereSlots_count_le cols pred f
    (List.range p.getSlotCount) p 0 false
  rw [List.length_range] at h
  exact le_trans h (by omega)

theorem insert_full (p : Page) (record : List Nat)
    (h0 : record.length ≠ 0)
    (hfull : p.freeSpace < (record.length : Int) + 5) :
    p.insert record = (InsertResult.pageFull, p) := by
  simp only [Page.insert, if_neg h0, if_pos hfull]

/-- The full effect of `SlottedPage.delete` on a live slot. -/
theorem delete_success_state (p : Page) (s off len : Nat) (hwf : pageWF p)
    (hsi : p.getSlotInfo s = some (off, len, false))
    (hoff : off < 65536) (hlen : len < 65536) :
    p.delete s = some (p.setSlotInfo s off len true) ∧
    (p.setSlotInfo s off len true).dataStart = p.dataStart ∧
    (p.setSlotInfo s off len true).slotCount = p.slotCount ∧
    (p.setSlotInfo s off len true).flags = p.flags ∧
    (p.setSlotInfo s off len true).data.length = p.data.length ∧
    (p.setSlotInfo s off len true).getSlotInfo s = some (off, len, true) := by
  obtain ⟨hdlen, hslots, hds, hfl⟩ := hwf
  have hslt : s < p.slotCount := by
    by_contra hge
    rw [Page.getSlotInfo, if_pos (by omega)] at hsi
    cases hsi
  have hb : 14 + s * 5 ≤ p.data.length := by omega
  have hb5 : 14 + s * 5 + 5 ≤ p.data.length := by omega
  have hlow : ∀ j, j < 14 →
      (p.setSlotInfo s off len true).data.getD j 0 = p.data.getD j 0 :=
    fun j hj => setSlotInfo_getD_lt p s off len true j (by omega) hb
  have e6 : (p.setSlotInfo s off len true).dataStart = p.dataStart :=
    readU16_congr_getD _ _ 6 (hlow 6 (by omega)) (hlow 7 (by omega))
  have e8 : (p.setSlotInfo s off len true).slotCount = p.slotCount :=
    readU16_congr_getD _ _ 8 (hlow 8 (by omega)) (hlow 9 (by omega))
  have e10 : (p.setSlotInfo s off len true).flags = p.flags :=
    readU32_congr_getD _ _ 10 (hlow 10 (by omega)) (hlow 11 (by omega))
      (hlow 12 (by omega)) (hlow 13 (by omega))
  obtain ⟨r0, r2, r4⟩ := setSlotInfo_readback p s off len true hb5 hoff hlen
  refine ⟨?_, e6, e8, e10, setSlotInfo_length p s off len true hb5, ?_⟩
  · rw [Page.delete, hsi]
    rfl
  · rw [Page.getSlotInfo, e8, if_neg (by omega), r0, r2, r4]
    simp

/-- One `update_where` slot iteration in which the row matched, the new
record was encoded and the old slot tombstoned, but the same-page reinsert
failed for lack of space: the slot loop continues with the tombstoned page
and an UNCHANGED count. -/
theorem updateWhereSlots_step_lost (cols : List ColumnDef)
    (pred : Row → Bool) (f : Row → Option Row) (s : Nat) (rest : List Nat)
    (p : Page) (cnt : Nat) (md : Bool) (bytes : List Nat) (row updated : Row)
    (nb : List Nat) (p1 : Page)
    (hdel : p.isDeleted s = false) (hread : p.read s = some bytes)
    (hdec : decodeRecord cols bytes = some row) (hpred : pred row = true)
    (hf : f row = some updated) (henc : encodeRecord cols updated = some nb)
    (hdelete : p.delete s = some p1)
    (hins : p1.insert nb = (InsertResult.pageFull, p1)) :
    updateWhereSlots cols pred f (s :: rest) p cnt md =
      updateWhereSlots cols pred f rest p1 cnt md := by
  rw [updateWhereSlots]
  simp [hdel, hread, hdec, hpred, hf, henc, hdelete, hins]

theorem updateWhereTable_singleton (cols : List ColumnDef)
    (pred : Row → Bool) (f : Row → Option Row) (p q : Page) (c : Nat)
    (b : Bool) (h : updateWherePage cols pred f p = (q, c, b)) :
    updateWhereTable cols pred f [p] = ([q], c) := by
  simp only [updateWhereTable, h, Nat.add_zero]

/-- C2 counterexample: a matching live row whose re-encoded record does
not fit back into its (full) page is silently LOST, not migrated: with
schema `[a VARCHAR(3000)]`, a 2500-byte string row fills a 4096-byte page
so that the tombstone-then-reinsert of even an identity update fails;
`update_where` reports 0 updates, the only page keeps its tombstoned slot
and no page (existing or new) receives the updated record — although the
record would fit an empty page, so the claimed migration is possible. -/
theorem update_where_loses_row_counterexample :
    encodeRecord [ColumnDef.mk "a" (ColType.varchar 3000)]
      [("a", Value.strV (String.mk (List.replicate 2500 'x')))] =
      some (0 :: 3 :: 0 :: 196 :: 9 ::
        utf8Encode (String.mk (List.replicate 2500 'x'))) ∧
    decodeRecord [ColumnDef.mk "a" (ColType.varchar 3000)]
      (0 :: 3 :: 0 :: 196 :: 9 ::
        utf8Encode (String.mk (List.replicate 2500 'x'))) =
      some [("a", Value.strV (String.mk (List.replicate 2500 'x')))] ∧
    ((Page.init 1).insert (0 :: 3 :: 0 :: 196 :: 9 ::
        utf8Encode (String.mk (List.replicate 2500 'x')))).1 =
      InsertResult.ok 0 ∧
    ((0 :: 3 :: 0 :: 196 :: 9 ::
        utf8Encode (String.mk (List.replicate 2500 'x'))).length : Int) + 5 ≤
      (Page.init 2).freeSpace ∧
    ∃ q, updateWhereTable [ColumnDef.mk "a" (ColType.varchar 3000)]
        (fun _ => true) (fun r => some r)
        [((Page.init 1).insert (0 :: 3 :: 0 :: 196 :: 9 ::
          utf8Encode (String.mk (List.replicate 2500 'x')))).2] = ([q], 0) ∧
      q.read 0 = none ∧ q.getAllRecords = [] ∧ q.slotCount = 1 := by
  have hlen : (utf8Encode (String.mk (List.replicate 2500 'x'))).length =
      2500 := utf8Encode_replicate_ascii 2500 'x' (by decide)
  have hreclen : (0 :: 3 :: 0 :: 196 :: 9 ::
      utf8Encode (String.mk (List.replicate 2500 'x'))).length = 2505 := by
    rw [List.length_cons, List.length_cons, List.length_cons,
      List.length_cons, List.length_cons, hlen]
  have hva : encodeValue ⟨"a", ColType.varchar 3000⟩
      (Value.strV (String.mk (List.replicate 2500 'x'))) =
      some ([196, 9] ++ utf8Encode (String.mk (List.replicate 2500 'x'))) := by
    show (if (utf8Encode (String.mk (List.replicate 2500 'x'))).length > 3000
      then none
      else (packU16
        (utf8Encode (String.mk (List.replicate 2500 'x'))).length).map
        (fun lenB => lenB ++ utf8Encode (String.mk (List.replicate 2500 'x'))))
      = _
    rw [hlen, if_neg (by omega), packU16_eq 2500 (by omega)]
    rfl
  have hstep := encodeCols_cons_some ⟨"a", ColType.varchar 3000⟩ []
    [("a", Value.strV (String.mk (List.replicate 2500 'x')))] 3 _ _ rfl
    (by intro h; cases h) hva
  have hnil : ∀ cur, encodeCols ([] : List ColumnDef)
      [("a", Value.strV (String.mk (List.replicate 2500 'x')))] cur =
      some ([], [], []) := fun _ => rfl
  rw [hnil, Option.map_some'] at hstep
  have henc : encodeRecord [ColumnDef.mk "a" (ColType.varchar 3000)]
      [("a", Value.strV (String.mk (List.replicate 2500 'x')))] =
      some (0 :: 3 :: 0 :: 196 :: 9 ::
        utf8Encode (String.mk (List.replicate 2500 'x'))) := by
    rw [encodeRecord, show headerSize
      [ColumnDef.mk "a" (ColType.varchar 3000)].length = 3 from rfl, hstep]
    simp only [Option.bind_eq_bind', Option.some_bind]
    rw [show packOffsets [3] = some [3, 0] from by decide]
    simp only [Option.some_bind]
    rw [show buildNullBitmap (nullBitmapSize
      [ColumnDef.mk "a" (ColType.varchar 3000)].length) [false] = [0]
      from by decide]
    rw [List.flatten_cons, List.flatten_nil, List.append_nil]
    rfl
  have hdv : decodeValue ⟨"a", ColType.varchar 3000⟩
      (0 :: 3 :: 0 :: 196 :: 9 ::
        utf8Encode (String.mk (List.replicate 2500 'x'))) 3 =
      some (Value.strV (String.mk (List.replicate 2500 'x'))) := by
    simp only [decodeValue]
    rw [if_neg (by rw [hreclen]; decide)]
    rw [show readU16 (0 :: 3 :: 0 :: 196 :: 9 ::
      utf8Encode (String.mk (List.replicate 2500 'x'))) 3 = 2500 from rfl]
    rw [if_neg (by rw [hreclen]; decide)]
    rw [show (0 :: 3 :: 0 :: 196 :: 9 ::
      utf8Encode (String.mk (List.replicate 2500 'x'))).drop (3 + 2) =
      utf8Encode (String.mk (List.replicate 2500 'x')) from rfl]
    rw [List.take_of_length_le (le_of_eq hlen), utf8Decode_utf8Encode]
    rfl
  have hdec : decodeRecord [ColumnDef.mk "a" (ColType.varchar 3000)]
      (0 :: 3 :: 0 :: 196 :: 9 ::
        utf8Encode (String.mk (List.replicate 2500 'x'))) =
      some [("a", Value.strV (String.mk (List.replicate 2500 'x')))] := by
    rw [decodeRecord]
    rw [if_neg (by rw [hreclen]; decide)]
    simp only [decodeColsLoop]
    rw [show ((0 :: 3 :: 0 :: 196 :: 9 ::
      utf8Encode (String.mk (List.replicate 2500 'x'))).take
      (nullBitmapSize
        [ColumnDef.mk "a" (ColType.varchar 3000)].length)) = [0] from rfl]
    rw [if_neg (by decide)]
    rw [show readU16 (0 :: 3 :: 0 :: 196 :: 9 ::
      utf8Encode (String.mk (List.replicate 2500 'x')))
      (nullBitmapSize [ColumnDef.mk "a" (ColType.varchar 3000)].length +
        2 * 0) = 3 from rfl]
    rw [if_neg (by decide)]
    rw [hdv]
    rfl
  have h6 : (Page.init 1).dataStart = 4096 :=
    (header_readback (List.replicate 4096 0) 1 4096 0 0
      (by rw [List.length_replicate]; omega) (by omega) (by omega)
      (by omega)).1
  have h8 : (Page.init 1).slotCount = 0 :=
    (header_readback (List.replicate 4096 0) 1 4096 0 0
      (by rw [List.length_replicate]; omega) (by omega) (by omega)
      (by omega)).2.1
  have h6b : (Page.init 2).dataStart = 4096 :=
    (header_readback (List.replicate 4096 0) 2 4096 0 0
      (by rw [List.length_replicate]; omega) (by omega) (by omega)
      (by omega)).1
  have h8b : (Page.init 2).slotCount = 0 :=
    (header_readback (List.replicate 4096 0) 2 4096 0 0
      (by rw [List.length_replicate]; omega) (by omega) (by omega)
      (by omega)).2.1
  have hfit1 : ¬ (Page.init 1).freeSpace <
      ((0 :: 3 :: 0 :: 196 :: 9 ::
        utf8Encode (String.mk (List.replicate 2500 'x'))).length : Int) + 5 := by
    rw [Page.freeSpace, h6, h8, hreclen]
    decide
  obtain ⟨i1, i2, i3, _, _, i6, i7, _⟩ := insert_success_state (Page.init 1)
    (0 :: 3 :: 0 :: 196 :: 9 ::
      utf8Encode (String.mk (List.replicate 2500 'x')))
    (pageWF_init 1) (by rw [hreclen]; omega) hfit1
  rw [h8] at i1 i3 i6 i7
  rw [Nat.zero_add] at i3
  rw [h6, hreclen] at i2 i6
  have wf1 := pageWF_insert (Page.init 1)
    (0 :: 3 :: 0 :: 196 :: 9 ::
      utf8Encode (String.mk (List.replicate 2500 'x')))
    (pageWF_init 1)
  obtain ⟨hd1, d6, d8, _, _, dsi⟩ := delete_success_state
    (((Page.init 1).insert (0 :: 3 :: 0 :: 196 :: 9 ::
      utf8Encode (String.mk (List.replicate 2500 'x')))).2)
    0 (4096 - 2505) 2505 wf1 i6 (by omega) (by omega)
  rw [i2] at d6
  rw [i3] at d8
  have hdel0 : (((Page.init 1).insert (0 :: 3 :: 0 :: 196 :: 9 ::
      utf8Encode (String.mk (List.replicate 2500 'x')))).2).isDeleted 0 =
      false := by
    rw [Page.isDeleted, i6]
  have hinsfull : ((((Page.init 1).insert (0 :: 3 :: 0 :: 196 :: 9 ::
      utf8Encode (String.mk (List.replicate 2500 'x')))).2).setSlotInfo 0
      (4096 - 2505) 2505 true).insert
      (0 :: 3 :: 0 :: 196 :: 9 ::
        utf8Encode (String.mk (List.replicate 2500 'x'))) =
      (InsertResult.pageFull,
        (((Page.init 1).insert (0 :: 3 :: 0 :: 196 :: 9 ::
          utf8Encode (String.mk (List.replicate 2500 'x')))).2).setSlotInfo 0
          (4096 - 2505) 2505 true) := by
    have hf : ((((Page.init 1).insert (0 :: 3 :: 0 :: 196 :: 9 ::
        utf8Encode (String.mk (List.replicate 2500 'x')))).2).setSlotInfo 0
        (4096 - 2505) 2505 true).freeSpace <
        ((0 :: 3 :: 0 :: 196 :: 9 ::
          utf8Encode (String.mk (List.replicate 2500 'x'))).length : Int) +
          5 := by
      rw [Page.freeSpace, d6, d8, hreclen]
      decide
    have hne0 : ¬ ((0 :: 3 :: 0 :: 196 :: 9 ::
        utf8Encode (String.mk (List.replicate 2500 'x'))).length = 0) := by
      rw [hreclen]
      omega
    exact insert_full _ _ hne0 hf
  have hupd : updateWherePage [ColumnDef.mk "a" (ColType.varchar 3000)]
      (fun _ => true) (fun r => some r)
      (((Page.init 1).insert (0 :: 3 :: 0 :: 196 :: 9 ::
        utf8Encode (String.mk (List.replicate 2500 'x')))).2) =
      ((((Page.init 1).insert (0 :: 3 :: 0 :: 196 :: 9 ::
        utf8Encode (String.mk (List.replicate 2500 'x')))).2).setSlotInfo 0
        (4096 - 2505) 2505 true, 0, false) := by
    rw [updateWherePage, Page.getSlotCount, i3,
      show List.range 1 = [0] from rfl]
    rw [updateWhereSlots_step_lost _ _ _ 0 [] _ 0 false _ _ _ _ _
      hdel0 i7 hdec rfl rfl henc hd1 hinsfull]
    rw [updateWhereSlots]
  refine ⟨henc, hdec, i1, ?_, ?_⟩
  · rw [Page.freeSpace, h6b, h8b, hreclen]
    decide
  · refine ⟨(((Page.init 1).insert (0 :: 3 :: 0 :: 196 :: 9 ::
      utf8Encode (String.mk (List.replicate 2500 'x')))).2).setSlotInfo 0
      (4096 - 2505) 2505 true, ?_, ?_, ?_, d8⟩
    · exact updateWhereTable_singleton _ _ _ _ _ _ _ hupd
    · rw [Page.read, dsi]
      rfl
    · have hdelq : Page.isDeleted ((((Page.init 1).insert (0 :: 3 :: 0 ::
          196 :: 9 :: utf8Encode (String.mk
          (List.replicate 2500 'x')))).2).setSlotInfo
          0 (4096 - 2505) 2505 true) 0 = true := by
        rw [Page.isDeleted, dsi]
      have hact : Page.getActiveSlots
          ((((Page.init 1).insert (0 :: 3 :: 0 :: 196 :: 9 ::
            utf8Encode (String.mk (List.replicate 2500 'x')))).2).setSlotInfo
            0 (4096 - 2505) 2505 true) = [] := by
        rw [Page.getActiveSlots, Page.getSlotCount, d8,
          show List.range 1 = [0] from rfl, List.filter_cons]
        beta_reduce
        rw [hdelq]
        rw [if_neg (by decide), List.filter_nil]
      rw [Page.getAllRecords, hact]
      rfl

theorem updateWhereSlots_step_fnone (cols : List ColumnDef)
    (pred : Row → Bool) (f : Row → Option Row) (s : Nat) (rest : List Nat)
    (p : Page) (cnt : Nat) (md : Bool) (bytes : List Nat) (row : Row)
    (hdel : p.isDeleted s = false) (hread : p.read s = some bytes)
    (hdec : decodeRecord cols bytes = some row) (hpred : pred row = true)
    (hf : f row = none) :
    updateWhereSlots cols pred f (s :: rest) p cnt md =
      updateWhereSlots cols pred f rest p cnt md := by
  rw [updateWhereSlots]
  simp [hdel, hread, hdec, hpred, hf]

/-- C3: an UPDATE whose new values violate a RESTRICT foreign key does NOT
abort with a DML error.  With parents(id INT) holding {id: 1} and a child
row {id: 10, parent_id: 1} referencing it, `UPDATE parents SET id = 2`
makes the referenced-keys validator return false (first conjunct), so
`update_func` raises — modelled as none (second conjunct); but
`update_where`'s per-slot bare except swallows the error: the update
completes normally with 0 affected rows and the parents page unchanged,
its row still readable (last conjuncts), instead of raising before any
page write as the spec claims. -/
theorem update_fk_violation_swallowed :
    validateForeignKeyConstraintsUpdate []
      [RefFK.mk "parent_id" "id"
        [[("id", Value.intV 10), ("parent_id", Value.intV 1)]]]
      [("id", Value.intV 1)] [("id", Value.intV 2)] = false ∧
    updateFunc [("id", Value.intV 2)] []
      [RefFK.mk "parent_id" "id"
        [[("id", Value.intV 10), ("parent_id", Value.intV 1)]]]
      [("id", Value.intV 1)] = none ∧
    encodeRecord [ColumnDef.mk "id" ColType.int] [("id", Value.intV 1)] =
      some [0, 3, 0, 1, 0, 0, 0] ∧
    updateWhereTable [ColumnDef.mk "id" ColType.int] (fun _ => true)
      (updateFunc [("id", Value.intV 2)] []
        [RefFK.mk "parent_id" "id"
          [[("id", Value.intV 10), ("parent_id", Value.intV 1)]]])
      [((Page.init 1).insert [0, 3, 0, 1, 0, 0, 0]).2] =
      ([((Page.init 1).insert [0, 3, 0, 1, 0, 0, 0]).2], 0) ∧
    ((Page.init 1).insert [0, 3, 0, 1, 0, 0, 0]).2.read 0 =
      some [0, 3, 0, 1, 0, 0, 0] := by
  have h6 : (Page.init 1).dataStart = 4096 :=
    (header_readback (List.replicate 4096 0) 1 4096 0 0
      (by rw [List.length_replicate]; omega) (by omega) (by omega)
      (by omega)).1
  have h8 : (Page.init 1).slotCount = 0 :=
    (header_readback (List.replicate 4096 0) 1 4096 0 0
      (by rw [List.length_replicate]; omega) (by omega) (by omega)
      (by omega)).2.1
  have hfit : ¬ (Page.init 1).freeSpace <
      (([0, 3, 0, 1, 0, 0, 0] : List Nat).length : Int) + 5 := by
    rw [Page.freeSpace, h6, h8]
    decide
  obtain ⟨i1, i2, i3, _, _, i6, i7, _⟩ := insert_success_state (Page.init 1)
    [0, 3, 0, 1, 0, 0, 0] (pageWF_init 1) (by decide) hfit
  rw [h8] at i3 i6 i7
  rw [Nat.zero_add] at i3
  have hdel0 : ((Page.init 1).insert [0, 3, 0, 1, 0, 0, 0]).2.isDeleted 0 =
      false := by
    rw [Page.isDeleted, i6]
  have hdec : decodeRecord [ColumnDef.mk "id" ColType.int]
      [0, 3, 0, 1, 0, 0, 0] = some [("id", Value.intV 1)] := by decide
  have hf : updateFunc [("id", Value.intV 2)] []
      [RefFK.mk "parent_id" "id"
        [[("id", Value.intV 10), ("parent_id", Value.intV 1)]]]
      [("id", Value.intV 1)] = none := by decide
  have hupd : updateWherePage [ColumnDef.mk "id" ColType.int]
      (fun _ => true)
      (updateFunc [("id", Value.intV 2)] []
        [RefFK.mk "parent_id" "id"
          [[("id", Value.intV 10), ("parent_id", Value.intV 1)]]])
      (((Page.init 1).insert [0, 3, 0, 1, 0, 0, 0]).2) =
      (((Page.init 1).insert [0, 3, 0, 1, 0, 0, 0]).2, 0, false) := by
    rw [updateWherePage, Page.getSlotCount, i3,
      show List.range 1 = [0] from rfl]
    rw [updateWhereSlots_step_fnone _ _ _ 0 [] _ 0 false _ _
      hdel0 i7 hdec rfl hf]
    rw [updateWhereSlots]
  exact ⟨by decide, hf, by decide,
    updateWhereTable_singleton _ _ _ _ _ _ _ hupd, i7⟩


theorem updateWhere_no_migration_witness :
    (updateWherePage [ColumnDef.mk "a" ColType.int] (fun _ => true)
      (fun r => some r) (Page.init 3)).2.1 ≤ (Page.init 3).getSlotCount :=
  (updateWhere_no_migration [ColumnDef.mk "a" ColType.int] (fun _ => true)
    (fun r => some r) [Page.init 3]).2.2 (Page.init 3) (by simp)

theorem cacheLookup_isSome_iff (cache : List ((String × Nat) × Page))
    (k : String × Nat) :
    (cacheLookup cache k).isSome ↔ k ∈ cache.map Prod.fst := by
  induction cache with
  | nil => simp [cacheLookup]
  | cons e rest ih =>
    obtain ⟨k0, p⟩ := e
    rw [cacheLookup]
    by_cases h : k0 = k
    · subst h
      simp
    · rw [if_neg h, List.map_cons, List.mem_cons, ih]
      constructor
      · exact Or.inr
      · rintro (hh | hh)
        · exact absurd hh.symm h
        · exact hh

theorem cacheLookup_none_iff (cache : List ((String × Nat) × Page))
    (k : String × Nat) :
    cacheLookup cache k = none ↔ ¬ k ∈ cache.map Prod.fst := by
  rw [← cacheLookup_isSome_iff, Option.not_isSome_iff_eq_none]

theorem eraseKey_length_le (c : List ((String × Nat) × Page))
    (k : String × Nat) : (eraseKey c k).length ≤ c.length :=
  List.length_filter_le _ _

theorem eraseKey_length_lt (c : List ((String × Nat) × Page))
    (k : String × Nat) (h : k ∈ c.map Prod.fst) :
    (eraseKey c k).length < c.length := by
  induction c with
  | nil => cases h
  | cons e0 rest ih =>
    rw [eraseKey, List.filter_cons]
    rw [List.map_cons, List.mem_cons] at h
    by_cases he0 : e0.1 = k
    · rw [if_neg (by simp [he0])]
      exact Nat.lt_succ_of_le (List.length_filter_le _ _)
    · rw [if_pos (by simp [he0])]
      have hk : k ∈ rest.map Prod.fst := by
        rcases h with h | h
        · exact absurd h.symm he0
        · exact h
      rw [List.length_cons, List.length_cons]
      exact Nat.succ_lt_succ (ih hk)

theorem eraseKey_eq_of_not_mem (c : List ((String × Nat) × Page))
    (k : String × Nat) (h : ¬ k ∈ c.map Prod.fst) : eraseKey c k = c := by
  rw [eraseKey, List.filter_eq_self]
  intro e he
  rw [decide_eq_true_iff]
  intro hek
  exact h (List.mem_map.mpr ⟨e, he, hek⟩)

theorem mem_keys_eraseKey (c : List ((String × Nat) × Page))
    (k k' : String × Nat) (h : k' ∈ c.map Prod.fst) (hne : k' ≠ k) :
    k' ∈ (eraseKey c k).map Prod.fst := by
  obtain ⟨e, he, hek⟩ := List.mem_map.mp h
  refine List.mem_map.mpr ⟨e, List.mem_filter.mpr ⟨he, ?_⟩, hek⟩
  rw [decide_eq_true_iff]
  rw [hek]
  exact hne

theorem evictOne_capacity (bp : BufferPool) :
    bp.evictOne.capacity = bp.capacity := by
  rw [BufferPool.evictOne]
  split
  · rfl
  · split <;> rfl

theorem evictOne_policy (bp : BufferPool) :
    bp.evictOne.policy = bp.policy := by
  rw [BufferPool.evictOne]
  split
  · rfl
  · split <;> rfl

theorem evictOne_cache_length (bp : BufferPool) (h : bp.cache ≠ []) :
    bp.evictOne.cache.length + 1 = bp.cache.length := by
  rw [BufferPool.evictOne]
  split
  case h_1 heq => exact absurd heq h
  case h_2 k page rest heq =>
    rw [heq]
    split <;> rfl

theorem poolWF_evictOne (bp : BufferPool) (h : poolWF bp) :
    poolWF bp.evictOne := by
  obtain ⟨hcap, hnd, hmem, hlen⟩ := h
  rw [BufferPool.evictOne]
  split
  case h_1 heq => exact ⟨hcap, hnd, hmem, hlen⟩
  case h_2 k page rest heq =>
    rw [heq] at hmem hlen
    split
    case isTrue hdk =>
      refine ⟨hcap, List.Nodup.filter _ hnd, ?_, ?_⟩
      · intro k' hk'
        have hk'd := List.mem_filter.mp hk'
        have hne : k' ≠ k := by
          have h2 := hk'd.2
          rw [decide_eq_true_iff] at h2
          exact h2
        have h3 := hmem k' hk'd.1
        rw [List.map_cons, List.mem_cons] at h3
        rcases h3 with hh | hh
        · exact absurd hh hne
        · exact hh
      · rw [List.length_cons] at hlen
        exact le_trans (Nat.le_succ _) hlen
    case isFalse hdk =>
      refine ⟨hcap, hnd, ?_, ?_⟩
      · intro k' hk'
        have h3 := hmem k' hk'
        rw [List.map_cons, List.mem_cons] at h3
        rcases h3 with hh | hh
        · subst hh
          have hc : bp.dirty.contains k' = true := by
            first
            | exact List.elem_iff.mpr hk'
            | simpa using hk'
          exact absurd hc hdk
        · exact hh
      · rw [List.length_cons] at hlen
        exact le_trans (Nat.le_succ _) hlen

theorem keys_map_replace (c : List ((String × Nat) × Page))
    (k : String × Nat) (page : Page) :
    (c.map (fun e => if e.1 = k then (k, page) else e)).map Prod.fst =
      c.map Prod.fst := by
  induction c with
  | nil => rfl
  | cons e rest ih =>
    rw [List.map_cons, List.map_cons, List.map_cons, ih]
    by_cases he : e.1 = k
    · rw [if_pos he,
        show ((k, page) : (String × Nat) × Page).1 = e.1 from he.symm]
    · rw [if_neg he]

theorem addEntry_spec (bp1 : BufferPool) (k : String × Nat) (page : Page)
    (h : poolWF bp1)
    (hroom : bp1.cache.length < bp1.capacity ∨ k ∈ bp1.cache.map Prod.fst) :
    poolWF (bp1.addEntry k page) ∧
    k ∈ (bp1.addEntry k page).cache.map Prod.fst ∧
    (bp1.addEntry k page).dirty = bp1.dirty ∧
    (bp1.addEntry k page).capacity = bp1.capacity := by
  obtain ⟨hcap, hnd, hmem, hlen⟩ := h
  rw [BufferPool.addEntry]
  split
  · -- LRU
    refine ⟨⟨hcap, hnd, ?_, ?_⟩, ?_, rfl, rfl⟩
    · intro k' hk'
      rw [List.map_append, List.mem_append]
      by_cases hkk : k' = k
      · right
        rw [hkk]
        simp
      · exact Or.inl (mem_keys_eraseKey _ _ _ (hmem k' hk') hkk)
    · show (eraseKey bp1.cache k ++ [(k, page)]).length ≤ bp1.capacity
      rw [List.length_append, List.length_cons, List.length_nil]
      rcases hroom with hroom | hroom
      · have := eraseKey_length_le bp1.cache k
        omega
      · have := eraseKey_length_lt bp1.cache k hroom
        omega
    · rw [List.map_append, List.mem_append]
      right
      simp
  · -- FIFO
    split
    · -- existing key
      case h_1 x heqlook =>
      refine ⟨⟨hcap, hnd, ?_, ?_⟩, ?_, rfl, rfl⟩
      · intro k' hk'
        rw [keys_map_replace]
        exact hmem k' hk'
      · show (bp1.cache.map fun e => if e.1 = k then (k, page) else e).length ≤
          bp1.capacity
        rw [List.length_map]
        exact hlen
      · rw [keys_map_replace]
        rw [← cacheLookup_isSome_iff, heqlook]
        rfl
    · -- new key
      case h_2 heqlook =>
      have hknot : ¬ k ∈ bp1.cache.map Prod.fst :=
        (cacheLookup_none_iff _ _).mp heqlook
      refine ⟨⟨hcap, hnd, ?_, ?_⟩, ?_, rfl, rfl⟩
      · intro k' hk'
        rw [List.map_append, List.mem_append]
        exact Or.inl (hmem k' hk')
      · show (bp1.cache ++ [(k, page)]).length ≤ bp1.capacity
        rw [List.length_append, List.length_cons, List.length_nil]
        rcases hroom with hroom | hroom
        · omega
        · exact absurd hroom hknot
      · rw [List.map_append, List.mem_append]
        right
        simp

theorem addEntry_capacity (bp1 : BufferPool) (k : String × Nat)
    (page : Page) : (bp1.addEntry k page).capacity = bp1.capacity := by
  rw [BufferPool.addEntry]
  split
  · rfl
  · split
    · rfl
    · rfl

theorem addToCache_spec (bp : BufferPool) (k : String × Nat) (page : Page)
    (h : poolWF bp) :
    poolWF (bp.addToCache k page) ∧
    k ∈ (bp.addToCache k page).cache.map Prod.fst ∧
    (bp.addToCache k page).capacity = bp.capacity := by
  rw [BufferPool.addToCache]
  have h1 : poolWF (if bp.cache.length ≥ bp.capacity ∧
      cacheLookup bp.cache k = none then bp.evictOne else bp) := by
    split
    · exact poolWF_evictOne bp h
    · exact h
  have h1cap : (if bp.cache.length ≥ bp.capacity ∧
      cacheLookup bp.cache k = none then bp.evictOne else bp).capacity =
      bp.capacity := by
    split
    · exact evictOne_capacity bp
    · rfl
  have h1room : (if bp.cache.length ≥ bp.capacity ∧
      cacheLookup bp.cache k = none then bp.evictOne else bp).cache.length <
      (if bp.cache.length ≥ bp.capacity ∧
        cacheLookup bp.cache k = none then bp.evictOne else bp).capacity ∨
      k ∈ (if bp.cache.length ≥ bp.capacity ∧
        cacheLookup bp.cache k = none then bp.evictOne else bp).cache.map
        Prod.fst := by
    by_cases hk : k ∈ bp.cache.map Prod.fst
    · rw [if_neg (fun hc => (cacheLookup_none_iff _ _).mp hc.2 hk)]
      exact Or.inr hk
    · have hlook : cacheLookup bp.cache k = none :=
        (cacheLookup_none_iff _ _).mpr hk
      by_cases hfull : bp.cache.length ≥ bp.capacity
      · rw [if_pos ⟨hfull, hlook⟩]
        left
        have hne : bp.cache ≠ [] :=
          List.ne_nil_of_length_pos (lt_of_lt_of_le h.1 hfull)
        have h2 := evictOne_cache_length bp hne
        have h3 := evictOne_capacity bp
        have h4 : bp.cache.length ≤ bp.capacity := h.2.2.2
        rw [h3]
        omega
      · rw [if_neg (fun hc => hfull hc.1)]
        left
        omega
  obtain ⟨w1, w2, _, w4⟩ := addEntry_spec _ k page h1 h1room
  exact ⟨w1, w2, by rw [w4, h1cap]⟩

theorem addToCache_capacity (bp : BufferPool) (k : String × Nat)
    (page : Page) : (bp.addToCache k page).capacity = bp.capacity := by
  rw [BufferPool.addToCache, addEntry_capacity]
  split
  · exact evictOne_capacity bp
  · rfl

theorem poolWF_getPage (bp : BufferPool) (t : String) (pid : Nat)
    (h : poolWF bp) : poolWF (bp.getPage t pid).2 := by
  simp only [BufferPool.getPage]
  split
  · -- hit
    case h_1 p heqlook =>
    split
    · -- LRU move-to-end
      obtain ⟨hcap, hnd, hmem, hlen⟩ := h
      have hk : (t, pid) ∈ bp.cache.map Prod.fst := by
        rw [← cacheLookup_isSome_iff, heqlook]
        rfl
      refine ⟨hcap, hnd, ?_, ?_⟩
      · intro k' hk'
        rw [List.map_append, List.mem_append]
        by_cases hkk : k' = (t, pid)
        · right
          rw [hkk]
          simp
        · exact Or.inl (mem_keys_eraseKey _ _ _ (hmem k' hk') hkk)
      · show (eraseKey bp.cache (t, pid) ++ [((t, pid), p)]).length ≤
          bp.capacity
        rw [List.length_append, List.length_cons, List.length_nil]
        have := eraseKey_length_lt bp.cache (t, pid) hk
        omega
    · exact h
  · -- miss
    exact (addToCache_spec bp (t, pid) _ h).1

theorem getPage_capacity (bp : BufferPool) (t : String) (pid : Nat) :
    (bp.getPage t pid).2.capacity = bp.capacity := by
  simp only [BufferPool.getPage]
  split
  · split
    · rfl
    · rfl
  · exact addToCache_capacity bp _ _

theorem poolWF_putPage (bp : BufferPool) (t : String) (page : Page)
    (d : Bool) (h : poolWF bp) : poolWF (bp.putPage t page d) := by
  obtain ⟨w1, w2, w3⟩ := addToCache_spec bp (t, page.pageId) page h
  simp only [BufferPool.putPage]
  split
  · -- markDirty
    obtain ⟨hcap, hnd, hmem, hlen⟩ := w1
    refine ⟨hcap, ?_, ?_, hlen⟩
    · split
      · exact hnd
      · case isFalse hcont =>
        rw [List.nodup_append]
        refine ⟨hnd, List.nodup_singleton _, ?_⟩
        intro a ha hb
        rw [List.mem_singleton] at hb
        subst hb
        exact hcont (by simpa using ha)
    · intro k' hk'
      split at hk'
      · exact hmem k' hk'
      · rw [List.mem_append, List.mem_singleton] at hk'
        rcases hk' with hk' | hk'
        · exact hmem k' hk'
        · rw [hk']
          exact w2
  · exact w1

theorem putPage_capacity (bp : BufferPool) (t : String) (page : Page)
    (d : Bool) : (bp.putPage t page d).capacity = bp.capacity := by
  simp only [BufferPool.putPage]
  split
  · exact addToCache_capacity bp _ _
  · exact addToCache_capacity bp _ _

theorem poolWF_flushKey (bp : BufferPool) (k : String × Nat)
    (h : poolWF bp) : poolWF (bp.flushKey k) := by
  rw [BufferPool.flushKey]
  split
  · refine ⟨h.1, h.2.1.filter _, ?_, h.2.2.2⟩
    intro k' hk'
    exact h.2.2.1 k' (List.mem_filter.mp hk').1
  · exact h

theorem flushKey_capacity (bp : BufferPool) (k : String × Nat) :
    (bp.flushKey k).capacity = bp.capacity := by
  rw [BufferPool.flushKey]
  split
  · rfl
  · rfl

theorem foldl_poolWF {α : Type} (step : BufferPool → α → BufferPool)
    (hstep : ∀ bp a, poolWF bp → poolWF (step bp a)) :
    ∀ (l : List α) (bp : BufferPool), poolWF bp → poolWF (l.foldl step bp) := by
  intro l
  induction l with
  | nil => exact fun bp h => h
  | cons a rest ih => exact fun bp h => ih _ (hstep bp a h)

theorem foldl_capacity {α : Type} (step : BufferPool → α → BufferPool)
    (hstep : ∀ bp a, (step bp a).capacity = bp.capacity) :
    ∀ (l : List α) (bp : BufferPool),
      (l.foldl step bp).capacity = bp.capacity := by
  intro l
  induction l with
  | nil => exact fun bp => rfl
  | cons a rest ih => exact fun bp => (ih _).trans (hstep bp a)

theorem poolWF_flushDirtyPages (bp : BufferPool) (t : Option String)
    (h : poolWF bp) : poolWF (bp.flushDirtyPages t) := by
  rw [BufferPool.flushDirtyPages]
  exact foldl_poolWF _ poolWF_flushKey _ bp h

theorem flushDirtyPages_capacity (bp : BufferPool) (t : Option String) :
    (bp.flushDirtyPages t).capacity = bp.capacity := by
  rw [BufferPool.flushDirtyPages]
  exact foldl_capacity _ flushKey_capacity _ bp

theorem poolWF_evictKey (bp : BufferPool) (k : String × Nat)
    (h : poolWF bp) : poolWF (bp.evictKey k) := by
  obtain ⟨hcap, hnd, hmem, hlen⟩ := h
  rw [BufferPool.evictKey]
  split
  · split
    · -- dirty victim
      refine ⟨hcap, hnd.filter _, ?_, ?_⟩
      · intro k' hk'
        have hk'd := List.mem_filter.mp hk'
        have hne : k' ≠ k := by
          have h2 := hk'd.2
          rw [decide_eq_true_iff] at h2
          exact h2
        exact mem_keys_eraseKey _ _ _ (hmem k' hk'd.1) hne
      · exact le_trans (eraseKey_length_le _ _) hlen
    · -- clean victim
      case isFalse hcont =>
      refine ⟨hcap, hnd, ?_, le_trans (eraseKey_length_le _ _) hlen⟩
      intro k' hk'
      have hne : k' ≠ k := by
        intro hkk
        subst hkk
        exact hcont (by simpa using hk')
      exact mem_keys_eraseKey _ _ _ (hmem k' hk') hne
  · exact ⟨hcap, hnd, hmem, hlen⟩

theorem evictKey_capacity (bp : BufferPool) (k : String × Nat) :
    (bp.evictKey k).capacity = bp.capacity := by
  rw [BufferPool.evictKey]
  split
  · split
    · rfl
    · rfl
  · rfl

theorem poolWF_evictTablePages (bp : BufferPool) (t : String)
    (h : poolWF bp) : poolWF (bp.evictTablePages t) := by
  rw [BufferPool.evictTablePages]
  exact foldl_poolWF _ poolWF_evictKey _ bp h

theorem evictTablePages_capacity (bp : BufferPool) (t : String) :
    (bp.evictTablePages t).capacity = bp.capacity := by
  rw [BufferPool.evictTablePages]
  exact foldl_capacity _ evictKey_capacity _ bp

theorem poolWF_clearCache (bp : BufferPool) (h : poolWF bp) :
    poolWF bp.clearCache := by
  have h1 := poolWF_flushDirtyPages bp none h
  rw [BufferPool.clearCache]
  exact ⟨h1.1, List.nodup_nil, fun k hk => absurd hk (List.not_mem_nil k),
    Nat.zero_le _⟩

theorem clearCache_capacity (bp : BufferPool) :
    bp.clearCache.capacity = bp.capacity := by
  rw [BufferPool.clearCache]
  exact flushDirtyPages_capacity bp none

theorem poolWF_closePool (bp : BufferPool) (h : poolWF bp) :
    poolWF bp.closePool :=
  poolWF_clearCache _ (poolWF_flushDirtyPages bp none h)

theorem closePool_capacity (bp : BufferPool) :
    bp.closePool.capacity = bp.capacity :=
  (clearCache_capacity _).trans (flushDirtyPages_capacity bp none)

theorem poolWF_applyOp (bp : BufferPool) (op : BufferOp) (h : poolWF bp) :
    poolWF (applyOp bp op) := by
  cases op with
  | get t pid => exact poolWF_getPage bp t pid h
  | put t page d => exact poolWF_putPage bp t page d h
  | flush t => exact poolWF_flushDirtyPages bp t h
  | evictTable t => exact poolWF_evictTablePages bp t h
  | clear => exact poolWF_clearCache bp h
  | close => exact poolWF_closePool bp h

theorem applyOp_capacity (bp : BufferPool) (op : BufferOp) :
    (applyOp bp op).capacity = bp.capacity := by
  cases op with
  | get t pid => exact getPage_capacity bp t pid
  | put t page d => exact putPage_capacity bp t page d
  | flush t => exact flushDirtyPages_capacity bp t
  | evictTable t => exact evictTablePages_capacity bp t
  | clear => exact clearCache_capacity bp
  | close => exact closePool_capacity bp

theorem poolWF_applyOps (bp : BufferPool) (ops : List BufferOp)
    (h : poolWF bp) : poolWF (applyOps bp ops) := by
  rw [applyOps]
  exact foldl_poolWF _ poolWF_applyOp _ bp h

theorem applyOps_capacity (bp : BufferPool) (ops : List BufferOp) :
    (applyOps bp ops).capacity = bp.capacity := by
  rw [applyOps]
  exact foldl_capacity _ applyOp_capacity _ bp

theorem dirty_length_le_cache (bp : BufferPool) (h : poolWF bp) :
    bp.dirty.length ≤ bp.cache.length := by
  have hsub : bp.dirty ⊆ bp.cache.map Prod.fst := fun k hk => h.2.2.1 k hk
  have := (h.2.1.subperm hsub).length_le
  rwa [List.length_map] at this

/-- C8: for every buffer pool constructed with a positive capacity and
every sequence of its operations (get_page, put_page, flush_dirty_pages,
evict_table_pages, clear_cache, close), the final state satisfies
|dirty| ≤ |cache| ≤ capacity and every dirty key is currently cached. -/
theorem buffer_pool_invariant (capacity : Nat) (policy : Policy)
    (disk : String → Nat → List Nat) (ops : List BufferOp)
    (hcap : 1 ≤ capacity) :
    (applyOps (BufferPool.mk0 capacity policy disk) ops).dirty.length ≤
      (applyOps (BufferPool.mk0 capacity policy disk) ops).cache.length ∧
    (applyOps (BufferPool.mk0 capacity policy disk) ops).cache.length ≤
      capacity ∧
    (∀ k ∈ (applyOps (BufferPool.mk0 capacity policy disk) ops).dirty,
      k ∈ (applyOps (BufferPool.mk0 capacity policy disk) ops).cache.map
        Prod.fst) := by
  have h0 : poolWF (BufferPool.mk0 capacity policy disk) :=
    ⟨hcap, List.nodup_nil, fun k hk => absurd hk (List.not_mem_nil k),
      Nat.zero_le _⟩
  have hw := poolWF_applyOps _ ops h0
  have hc := applyOps_capacity (BufferPool.mk0 capacity policy disk) ops
  refine ⟨dirty_length_le_cache _ hw, ?_, hw.2.2.1⟩
  have := hw.2.2.2
  rwa [hc] at this

theorem buffer_pool_invariant_witness :
    1 ≤ 1 ∧
    ((applyOps (BufferPool.mk0 1 Policy.lru (fun _ _ => []))
        [BufferOp.put "t" ⟨0, []⟩ true]).dirty.length ≤
      (applyOps (BufferPool.mk0 1 Policy.lru (fun _ _ => []))
        [BufferOp.put "t" ⟨0, []⟩ true]).cache.length ∧
    (applyOps (BufferPool.mk0 1 Policy.lru (fun _ _ => []))
        [BufferOp.put "t" ⟨0, []⟩ true]).cache.length ≤ 1 ∧
    (∀ k ∈ (applyOps (BufferPool.mk0 1 Policy.lru (fun _ _ => []))
        [BufferOp.put "t" ⟨0, []⟩ true]).dirty,
      k ∈ (applyOps (BufferPool.mk0 1 Policy.lru (fun _ _ => []))
        [BufferOp.put "t" ⟨0, []⟩ true]).cache.map Prod.fst)) :=
  ⟨le_refl 1,
    buffer_pool_invariant 1 Policy.lru (fun _ _ => [])
      [BufferOp.put "t" ⟨0, []⟩ true] (le_refl 1)⟩

end MoonSQL
